import Mathlib

/-!
Verification of the stimulus-onboarding script execution engine.

The Python sources embedded here are:
- stimulus_onboarding/script_runner.py (ScriptedScene: step dispatch, segment
  buffer, typing reveal, timers, menu/command coordination, teardown),
- stimulus_onboarding/ui_components/text_utils.py (marker stripping,
  fix_incomplete_markup),
- stimulus_onboarding/ui_components/animations.py (gradient cycling),
- stimulus_onboarding/ui_components/terminal.py (run_command outcome shape),
- stimulus_onboarding/scripting.py (the Step variants).

Strings are modelled as lists of characters; the single-threaded Textual
event loop is modelled as a small-step relation over an explicit scene
state, with one event per timer callback, key press, menu choice or
subprocess completion.
-/

namespace StimulusOnboarding

abbrev Str := List Char

/-- YAML_BLOCK_START from text_utils.py, the sentinel opening marker
inserted by format_yaml_preview around embedded YAML previews. -/
def YAML_BLOCK_START : Str :=
  '\x7b' :: '\x7b' :: 'Y' :: 'A' :: 'M' :: 'L' :: '_' :: 'S' :: 'T' :: 'A' :: 'R' :: 'T' :: '\x7d' :: '\x7d' :: []

/-- YAML_BLOCK_END from text_utils.py, the sentinel closing marker. -/
def YAML_BLOCK_END : Str :=
  '\x7b' :: '\x7b' :: 'Y' :: 'A' :: 'M' :: 'L' :: '_' :: 'E' :: 'N' :: 'D' :: '\x7d' :: '\x7d' :: []

/-- Does p occur at the start of s?  (Python str startswith, used to embed
str.replace scanning.) -/
def isPrefixList : Str → Str → Bool
  | [], _ => true
  | _ :: _, [] => false
  | a :: ps, b :: ss => a == b && isPrefixList ps ss

/-- One fuel-indexed pass of Python str.replace(p, ""): scan left to right,
on a match drop the matched region and resume scanning after it.  Fuel 0 is
never reached when called with fuel = length + 1. -/
def removeOccsFuel : Nat → Str → Str → Str
  | 0, _, s => s
  | _ + 1, _, [] => []
  | fuel + 1, p, c :: rest =>
      if p ≠ [] ∧ isPrefixList p (c :: rest) = true then
        removeOccsFuel fuel p ((c :: rest).drop p.length)
      else
        c :: removeOccsFuel fuel p rest

/-- Python s.replace(p, ""): remove every (non-overlapping, left-to-right)
occurrence of p from s. -/
def removeOccs (p s : Str) : Str := removeOccsFuel (s.length + 1) p s

/-- _strip_yaml_markers from script_runner.py:
text.replace(YAML_BLOCK_START, "").replace(YAML_BLOCK_END, ""). -/
def strip_yaml_markers (t : Str) : Str :=
  removeOccs YAML_BLOCK_END (removeOccs YAML_BLOCK_START t)

/-- fix_incomplete_markup from text_utils.py: if the text contains a "["
and the part after the last "[" contains no "]", truncate the text just
before that last "["; otherwise return it unchanged. -/
def fix_incomplete_markup (s : Str) : Str :=
  if '[' ∈ s ∧ ']' ∉ s.reverse.takeWhile (fun c => c != '[') then
    ((s.reverse.dropWhile (fun c => c != '[')).drop 1).reverse
  else s

/-- The display post-processing pipeline named by the spec: strip the
sentinel markers, then truncate a trailing incomplete markup tag. -/
def clean (s : Str) : Str := fix_incomplete_markup (strip_yaml_markers s)

/-- Python "p in s" on strings: substring containment
(used for the "pip install" timeout check in _handle_terminal). -/
def containsSub (p : Str) : Str → Bool
  | [] => p == []
  | c :: rest => isPrefixList p (c :: rest) || containsSub p rest

/-- GRADIENT_COLORS from animations.py (ten entries). -/
def GRADIENT_COLORS : List Str :=
  ["#ff6b00".toList, "#ff7b00".toList, "#ff8c00".toList, "#ff9d00".toList,
   "#ffae00".toList, "#ffbf00".toList, "#ffae00".toList, "#ff9d00".toList,
   "#ff8c00".toList, "#ff7b00".toList]

/-- cycle_gradient_offset from animations.py. -/
def cycle_gradient_offset (o : ℕ) : ℕ := (o + 1) % GRADIENT_COLORS.length

/-- Helper for apply_gradient: wrap each character of the text in a bold
color tag chosen by its index plus the offset. -/
def apply_gradientAux : Str → ℕ → ℕ → Str
  | [], _, _ => []
  | c :: rest, i, offset =>
      "[bold ".toList
        ++ GRADIENT_COLORS.getD ((i + offset) % GRADIENT_COLORS.length) []
        ++ ']' :: c :: "[/]".toList
        ++ apply_gradientAux rest (i + 1) offset

/-- apply_gradient from animations.py. -/
def apply_gradient (text : Str) (offset : ℕ) : Str := apply_gradientAux text 0 offset

/-- The Step variants of scripting.py.  Content references are modelled as
the resolved strings the interpreter sees (content loading and placeholder
substitution are out of scope per the spec). -/
inductive Step where
  | display (content : Str) (clear : Bool)
  | displayYaml (content : Str) (title : Option Str)
  | displayPython (content : Str) (title : Option Str)
  | type (content : Str) (speed : ℚ)
  | gradient (content : Str)
  | terminal (command : Str)
  | wait (seconds : ℚ)
  | waitForInput (prompt : Str) (key : Str)
deriving DecidableEq

/-- The segment buffer entries of script_runner.py: TextSegment (content,
visible_length, is_gradient, gradient_offset) and CodeSegment (content,
language, title). -/
inductive Segment where
  | text (content : Str) (visible_length : ℕ) (is_gradient : Bool) (gradient_offset : ℕ)
  | code (content : Str) (language : Str) (title : Option Str)
deriving DecidableEq

/-- TerminalWidget state (terminal.py): prefilled command, current input
value, disabled flag, run timeout in seconds, log lines. -/
structure TerminalW where
  prefilled_command : Str
  inputValue : Str
  inputDisabled : Bool
  timeout : ℕ
  logLines : List Str
deriving DecidableEq

/-- The repeating reveal timer armed by _handle_type / _resume_typing; it
holds a reference to the segment being revealed (by buffer position, which
is stable because the buffer is append-only while a reveal is running) and
the per-character interval. -/
structure TypingTimer where
  segIdx : ℕ
  speed : ℚ
deriving DecidableEq

/-- The one-shot narrative-pause timer armed by _type_tick at a paragraph
break; it remembers which segment and speed to resume with, and the fixed
delay it was armed with. -/
structure PauseTimer where
  segIdx : ℕ
  speed : ℚ
  delay : ℚ
deriving DecidableEq

/-- The fixed narrative pause delay: set_timer(0.8, ...) in _type_tick. -/
def narrativePauseDelay : ℚ := 8 / 10

/-- The full ScriptedScene state: script and cursor, segment buffer, the
three suspension flags, the timers, navigation hint state, the terminal
widget and menu, plus two ghost fields: gatewayCalls records every
invocation of the command execution gateway (command and timeout), and
badAdvance records whether the cursor was ever incremented while a
suspension flag was set. -/
structure SceneState where
  script : List Step
  idx : ℕ
  segments : List Segment
  waitingInput : Bool
  expectedKey : Str
  waitingCommand : Bool
  waitingCompletion : Bool
  typingTimer : Option TypingTimer
  pauseTimer : Option PauseTimer
  waitTimer : Option ℚ
  animationTimer : Bool
  navHintTimer : Bool
  navHintOffset : ℕ
  navHintText : Str
  terminal : Option TerminalW
  menuMounted : Bool
  inflightCmd : Option Str
  gatewayCalls : List (Str × ℕ)
  firstTerminalCmd : Option Str
  badAdvance : Bool
deriving DecidableEq

/-- The external events that can reach the scene: the repeating reveal
tick, the narrative-pause one-shot, the Wait one-shot, a key press, a menu
choice, worker completion, the animation clock tick, the hint pulse tick,
and teardown. -/
inductive Event where
  | typeTick
  | pauseFire
  | waitFire
  | keyEvent (k : Str)
  | menuEvent (choice : Str)
  | commandComplete
  | animTick
  | hintTick
  | unmount
deriving DecidableEq

def pipInstallChars : Str := "pip install".toList
def downChars : Str := "down".toList
def runChars : Str := "Run".toList
def skipChars : Str := "Skip".toList
def readyLine : Str := "[bold green]$[/] Ready".toList
def skipNotice : Str := "[yellow]Skipping step...[/]".toList
def selectHintChars : Str := "Select an option to continue".toList

/-- The spacer segment TextSegment(content="\n\n", visible_length=2)
inserted by _handle_display and _handle_terminal. -/
def spacerSegment : Segment := .text ['\n', '\n'] 2 false 0

/-- timeout=120 if "pip install" in step.command else 30, from
_handle_terminal. -/
def chooseTimeout (cmd : Str) : ℕ := if containsSub pipInstallChars cmd then 120 else 30

/-- The TerminalWidget constructed on the first Terminal step:
prefilled with the command, input enabled, timeout chosen from the
command, and the on_mount Ready line in the log. -/
def mkTerminalW (cmd : Str) : TerminalW :=
  ⟨cmd, cmd, false, chooseTimeout cmd, [readyLine]⟩

def isTextSeg : Segment → Bool
  | .text .. => true
  | .code .. => false

/-- In-place update of the segment a timer closure references. -/
def modifyAt : List Segment → ℕ → (Segment → Segment) → List Segment
  | [], _, _ => []
  | a :: t, 0, f => f a :: t
  | a :: t, n + 1, f => a :: modifyAt t n f

/-- segment.visible_length = n (only text segments carry the cursor). -/
def setVisible (n : ℕ) : Segment → Segment
  | .text c _ g o => .text c n g o
  | s => s

/-- One _animate_frame step on a single segment: gradient-animated text
segments cycle their offset, everything else is untouched. -/
def bumpGradient : Segment → Segment
  | .text c v true o => .text c v true (cycle_gradient_offset o)
  | s => s

/-- _handle_display: clear the buffer if step.clear, otherwise append a
"\n\n" spacer when the buffer ends in a TextSegment, then append the
content as a fully visible TextSegment. -/
def handleDisplay (s : SceneState) (content : Str) (clear : Bool) : SceneState :=
  let base :=
    if clear then []
    else
      match s.segments.getLast? with
      | some seg => if isTextSeg seg then s.segments ++ [spacerSegment] else s.segments
      | none => s.segments
  { s with segments := base ++ [.text content content.length false 0] }

/-- _handle_display_yaml: append a CodeSegment with language "yaml". -/
def handleDisplayYaml (s : SceneState) (content : Str) (title : Option Str) : SceneState :=
  { s with segments := s.segments ++ [.code content "yaml".toList title] }

/-- _handle_display_python: append a CodeSegment with language "python". -/
def handleDisplayPython (s : SceneState) (content : Str) (title : Option Str) : SceneState :=
  { s with segments := s.segments ++ [.code content "python".toList title] }

/-- _handle_gradient: append a fully visible gradient-animated segment. -/
def handleGradient (s : SceneState) (content : Str) : SceneState :=
  { s with segments := s.segments ++ [.text content content.length true 0] }

/-- _handle_type: append a TextSegment with visible_length 0 and arm the
reveal timer at the step's speed, referencing the appended segment. -/
def handleType (s : SceneState) (content : Str) (speed : ℚ) : SceneState :=
  { s with segments := s.segments ++ [.text content 0 false 0],
           typingTimer := some ⟨s.segments.length, speed⟩ }

/-- The spacing rule at the top of _handle_terminal: append a "\n\n"
spacer when the buffer ends in a TextSegment whose content does not end
with a newline. -/
def terminalSegs (segs : List Segment) : List Segment :=
  match segs.getLast? with
  | some (.text tc _ _ _) =>
      if tc.getLast? ≠ some '\n' then segs ++ [spacerSegment] else segs
  | _ => segs

/-- _handle_terminal: apply the spacing rule; create the TerminalWidget on
first use (fixing its timeout from this command) or refill the existing
widget's input; mount the action menu; suspend awaiting a command choice.
firstTerminalCmd is a ghost recording the command the widget was created
with. -/
def handleTerminal (s : SceneState) (command : Str) : SceneState :=
  { s with segments := terminalSegs s.segments,
           terminal := some (match s.terminal with
             | none => mkTerminalW command
             | some w => { w with inputValue := command, inputDisabled := false }),
           firstTerminalCmd := (match s.terminal with
             | none => some command
             | some _ => s.firstTerminalCmd),
           waitingCommand := true, menuMounted := true, navHintText := selectHintChars }

/-- _handle_wait_for_input: suspend awaiting the step's key; for the
"down" key start the pulsing hint animation, otherwise show the prompt. -/
def handleWaitForInput (s : SceneState) (prompt : Str) (key : Str) : SceneState :=
  { s with waitingInput := true, expectedKey := key,
           navHintTimer := if key = downChars then true else s.navHintTimer,
           navHintText := if key = downChars then s.navHintText else prompt }

/-- The cursor increment at the top of _execute_next_step.  The
badAdvance ghost records whether a suspension flag was active at the
moment of the increment (waitingCompletion cannot be: it is checked
first, as in the source). -/
def bumpIdx (s : SceneState) : SceneState :=
  { s with idx := s.idx + 1,
           badAdvance := s.badAdvance || s.waitingInput || s.waitingCommand }

/-- _execute_next_step, fuel-indexed.  The recursion is bounded by the
number of remaining script steps, so execNext below passes exactly that as
fuel and fuel exhaustion is unreachable. -/
def execFuel : ℕ → SceneState → SceneState
  | 0, s => s
  | fuel + 1, s =>
    if s.waitingCompletion then s
    else
      match s.script.get? s.idx with
      | none => s
      | some stp =>
        match stp with
        | .display c cl => execFuel fuel (handleDisplay (bumpIdx s) c cl)
        | .displayYaml c t => execFuel fuel (handleDisplayYaml (bumpIdx s) c t)
        | .displayPython c t => execFuel fuel (handleDisplayPython (bumpIdx s) c t)
        | .type c sp => handleType (bumpIdx s) c sp
        | .gradient c => execFuel fuel (handleGradient (bumpIdx s) c)
        | .terminal cmd => handleTerminal (bumpIdx s) cmd
        | .wait secs => { bumpIdx s with waitTimer := some secs }
        | .waitForInput pr k => handleWaitForInput (bumpIdx s) pr k

/-- The dispatch table of _execute_next_step on a fetched step, spelled
out as a standalone function so proofs can rewrite with it.  It is
definitionally the body of execFuel after the cursor fetch. -/
def dispatchStep (s : SceneState) (n : ℕ) : Step → SceneState
  | .display c cl => execFuel n (handleDisplay (bumpIdx s) c cl)
  | .displayYaml c t => execFuel n (handleDisplayYaml (bumpIdx s) c t)
  | .displayPython c t => execFuel n (handleDisplayPython (bumpIdx s) c t)
  | .type c sp => handleType (bumpIdx s) c sp
  | .gradient c => execFuel n (handleGradient (bumpIdx s) c)
  | .terminal cmd => handleTerminal (bumpIdx s) cmd
  | .wait secs => { bumpIdx s with waitTimer := some secs }
  | .waitForInput pr k => handleWaitForInput (bumpIdx s) pr k

/-- _execute_next_step. -/
def execNext (s : SceneState) : SceneState := execFuel (s.script.length - s.idx) s

/-- _type_tick: when the referenced segment is fully visible, stop the
reveal timer and advance the script; otherwise reveal one more character
and, when the newly revealed character is a newline at a positive index
whose predecessor is not a newline, stop the reveal timer and arm the
narrative-pause one-shot. -/
def typeTickStep (s : SceneState) : SceneState :=
  match s.typingTimer with
  | none => s
  | some t =>
    match s.segments.get? t.segIdx with
    | some (.text c v _ _) =>
      if c.length ≤ v then
        execNext { s with typingTimer := none }
      else
        if 0 < v + 1 - 1 ∧ c.get? (v + 1 - 1) = some '\n' ∧
            (v + 1 - 1 < 1 ∨ c.get? (v + 1 - 1 - 1) ≠ some '\n') then
          { s with segments := modifyAt s.segments t.segIdx (setVisible (v + 1)),
                   typingTimer := none,
                   pauseTimer := some ⟨t.segIdx, t.speed, narrativePauseDelay⟩ }
        else { s with segments := modifyAt s.segments t.segIdx (setVisible (v + 1)) }
    | _ => s

/-- _resume_typing, fired by the narrative-pause one-shot: re-arm the
reveal timer on the same segment at the same speed. -/
def pauseFireStep (s : SceneState) : SceneState :=
  match s.pauseTimer with
  | some p => { s with pauseTimer := none, typingTimer := some ⟨p.segIdx, p.speed⟩ }
  | none => s

/-- The Wait one-shot firing: the timer is spent and the script advances. -/
def waitFireStep (s : SceneState) : SceneState :=
  match s.waitTimer with
  | some _ => execNext { s with waitTimer := none }
  | none => s

/-- on_key: ignored unless suspended awaiting input; on the expected key
clear the suspension, stop the hint animation, clear the hint text and
advance.  Any other key leaves the state untouched. -/
def keyStep (s : SceneState) (k : Str) : SceneState :=
  if s.waitingInput = true ∧ k = s.expectedKey then
    execNext { s with waitingInput := false, navHintTimer := false, navHintText := [] }
  else s

def disableInput (w : TerminalW) : TerminalW := { w with inputDisabled := true }

/-- on_action_menu_action_selected: ignored unless awaiting a command
choice; otherwise remove the menu, disable terminal input and clear the
suspension (menuClear), then on "Run" look up the Terminal step just
behind the cursor and start the gateway worker (recording the call with
the widget's timeout), and on "Skip" log a notice and advance
immediately. -/
def menuClear (s : SceneState) : SceneState :=
  { s with menuMounted := false,
           terminal := s.terminal.map disableInput,
           waitingCommand := false }

def menuStep (s : SceneState) (choice : Str) : SceneState :=
  if s.waitingCommand = true then
    if choice = runChars then
      match (menuClear s).terminal with
      | some w =>
        match (menuClear s).script.get? ((menuClear s).idx - 1) with
        | some (.terminal cmd) =>
            { menuClear s with
                waitingCompletion := true,
                inflightCmd := some cmd,
                gatewayCalls := (menuClear s).gatewayCalls ++ [(cmd, w.timeout)] }
        | _ => menuClear s
      | none => menuClear s
    else if choice = skipChars then
      match (menuClear s).terminal with
      | some w =>
          execNext { menuClear s with
            terminal := some { w with logLines := w.logLines ++ [skipNotice] } }
      | none => execNext (menuClear s)
    else menuClear s
  else s

/-- The tail of _run_command_and_continue, after run_command returns
(success, failure or timeout are all completion): clear the suspension and
advance. -/
def commandCompleteStep (s : SceneState) : SceneState :=
  match s.inflightCmd with
  | some _ => execNext { s with inflightCmd := none, waitingCompletion := false }
  | none => s

/-- _animate_frame: cycle the offset of every gradient segment. -/
def animTickStep (s : SceneState) : SceneState :=
  if s.animationTimer = true then { s with segments := s.segments.map bumpGradient } else s

/-- _animate_down_hint: cycle the hint pulse phase and re-render the hint
text with the new gradient offset. -/
def hintTickStep (s : SceneState) : SceneState :=
  if s.navHintTimer = true then
    { s with navHintOffset := cycle_gradient_offset s.navHintOffset,
             navHintText :=
               "press ".toList ++ apply_gradient ['↓'] (cycle_gradient_offset s.navHintOffset)
                 ++ " to continue".toList }
  else s

/-- on_unmount: stop the hint pulse, the reveal timer and the animation
clock.  The narrative-pause and Wait one-shots keep no handle in the
source, so they are left armed. -/
def unmountStep (s : SceneState) : SceneState :=
  { s with navHintTimer := false, typingTimer := none, animationTimer := false }

/-- The event dispatch of the single-threaded event loop. -/
def stepEv : Event → SceneState → SceneState
  | .typeTick, s => typeTickStep s
  | .pauseFire, s => pauseFireStep s
  | .waitFire, s => waitFireStep s
  | .keyEvent k, s => keyStep s k
  | .menuEvent a, s => menuStep s a
  | .commandComplete, s => commandCompleteStep s
  | .animTick, s => animTickStep s
  | .hintTick, s => hintTickStep s
  | .unmount, s => unmountStep s

/-- The state built by __init__ for a given script. -/
def initState (script : List Step) : SceneState :=
  { script := script, idx := 0, segments := [],
    waitingInput := false, expectedKey := [],
    waitingCommand := false, waitingCompletion := false,
    typingTimer := none, pauseTimer := none, waitTimer := none,
    animationTimer := true, navHintTimer := false, navHintOffset := 0, navHintText := [],
    terminal := none, menuMounted := false, inflightCmd := none,
    gatewayCalls := [], firstTerminalCmd := none, badAdvance := false }

/-- on_mount: start the animation clock and execute the first step. -/
def mountState (script : List Step) : SceneState := execNext (initState script)

/-- The states the scene can be in: the mounted state and everything
obtained from it by event steps (including post-teardown events). -/
inductive Reachable (script : List Step) : SceneState → Prop where
  | init : Reachable script (mountState script)
  | step (s : SceneState) (e : Event) : Reachable script s → Reachable script (stepEv e s)

/-- One round of the reveal loop as seen between per-character intervals:
the reveal tick, followed by the narrative-pause one-shot if the tick
armed one (pauseFireStep is the identity otherwise). -/
def revealRound (s : SceneState) : SceneState := pauseFireStep (typeTickStep s)

/-- The renderables _render_all produces: flowing text runs and boxed code
blocks. -/
inductive Renderable where
  | textRun (content : Str)
  | codeBlock (content : Str) (language : Str) (title : Option Str)
deriving DecidableEq

/-- TextSegment.render: the visible prefix, gradient-wrapped for gradient
segments, otherwise with a trailing incomplete tag truncated. -/
def segRenderText : Segment → Str
  | .text c v g o => if g then apply_gradient (c.take v) o else fix_incomplete_markup (c.take v)
  | .code .. => []

/-- The _render_all loop: adjacent text segments are concatenated into one
buffer which is marker-stripped when flushed; a code segment flushes the
buffer and renders as its own block. -/
def renderAllAux : List Segment → Str → List Renderable
  | [], buf => if buf = [] then [] else [.textRun (strip_yaml_markers buf)]
  | .text c v g o :: rest, buf => renderAllAux rest (buf ++ segRenderText (.text c v g o))
  | .code c lang t :: rest, buf =>
      (if buf = [] then [] else [.textRun (strip_yaml_markers buf)])
        ++ .codeBlock c lang t :: renderAllAux rest []

/-- _render_all on a segment buffer. -/
def renderAll (segs : List Segment) : List Renderable := renderAllAux segs []

/-- The concatenated text of an all-text segment buffer. -/
def segsText (segs : List Segment) : Str := (segs.map segRenderText).flatten

/-- The observable outcomes of TerminalWidget.run_command's subprocess. -/
inductive CmdOutcome where
  | ok
  | timedOut
  | errored
deriving DecidableEq

/-- What run_command does in each case: whether the process is killed and
whether the call returns (reporting completion to the interpreter). -/
structure CmdResult where
  processKilled : Bool
  completed : Bool
deriving DecidableEq

/-- run_command from terminal.py: normal completion returns; on
asyncio.TimeoutError the process is killed and the call still returns; any
other exception is logged and the call still returns.  In every case the
worker continues, so completion is reported. -/
def run_command_result : CmdOutcome → CmdResult
  | .ok => ⟨false, true⟩
  | .timedOut => ⟨true, true⟩
  | .errored => ⟨false, true⟩

/-- No suspension flag is set. -/
def flagsClear (s : SceneState) : Prop :=
  s.waitingInput = false ∧ s.waitingCommand = false ∧ s.waitingCompletion = false

/-- The number of active suspension reasons. -/
def suspCount (s : SceneState) : ℕ :=
  (if s.waitingInput = true then 1 else 0) +
  (if s.waitingCommand = true then 1 else 0) +
  (if s.waitingCompletion = true then 1 else 0)

/-- The number of armed script-driving timers. -/
def timerCount (s : SceneState) : ℕ :=
  (if s.typingTimer.isSome then 1 else 0) +
  (if s.pauseTimer.isSome then 1 else 0) +
  (if s.waitTimer.isSome then 1 else 0)

/-- No script-driving timer is armed. -/
def timersNone (s : SceneState) : Prop :=
  s.typingTimer = none ∧ s.pauseTimer = none ∧ s.waitTimer = none

/-- The per-segment buffer invariant: the reveal cursor never exceeds the
content length. -/
def segOK : Segment → Prop
  | .text c v _ _ => v ≤ c.length
  | .code .. => True

/-- The timeout wiring invariant: the terminal widget exists exactly when
some Terminal step has run, its timeout was fixed from the first such
command, and every recorded gateway call used that timeout. -/
def timeoutOK (s : SceneState) : Prop :=
  (s.firstTerminalCmd = none → s.terminal = none ∧ s.gatewayCalls = []) ∧
  (∀ c0, s.firstTerminalCmd = some c0 →
    (∃ w, s.terminal = some w ∧ w.timeout = chooseTimeout c0) ∧
    ∀ p ∈ s.gatewayCalls, p.2 = chooseTimeout c0)

/-- The inductive invariant of reachable scene states. -/
structure Inv (s : SceneState) : Prop where
  atMostOne : suspCount s ≤ 1
  noBad : s.badAdvance = false
  timersOne : timerCount s ≤ 1
  typingClear : s.typingTimer.isSome → flagsClear s
  pauseClear : s.pauseTimer.isSome → flagsClear s
  waitClear : s.waitTimer.isSome → flagsClear s
  cmdStep : s.waitingCommand = true →
    s.terminal.isSome ∧ 1 ≤ s.idx ∧ ∃ cmd, s.script.get? (s.idx - 1) = some (.terminal cmd)
  complInflight : s.waitingCompletion = true → s.inflightCmd.isSome
  inflightCompl : s.inflightCmd.isSome → s.waitingCompletion = true
  timeoutInv : timeoutOK s
  segsOK : ∀ seg ∈ s.segments, segOK seg

/-- The precondition under which _execute_next_step is ever entered: no
suspension flag set, no script-driving timer armed, no command in flight,
ghost fields healthy. -/
def ExecPre (s : SceneState) : Prop :=
  flagsClear s ∧ timersNone s ∧ s.inflightCmd = none ∧ s.badAdvance = false ∧
    timeoutOK s ∧ ∀ seg ∈ s.segments, segOK seg

/-- Concrete scripts and states used as witnesses and counterexamples. -/
def demoScript4 : List Step := [Step.waitForInput "p".toList "enter".toList]

def c2Script : List Step := [Step.wait 1, Step.display ['x'] false]

def markerContentChars : Str := YAML_BLOCK_START ++ ['a', 'b'] ++ YAML_BLOCK_END

def c1Script : List Step := [Step.type markerContentChars 1]

def c5Script : List Step := [Step.type ['a', 'b'] 1]

def c6Script : List Step := [Step.terminal "ls".toList]

def c8Script : List Step := [Step.waitForInput "p".toList "enter".toList, Step.display ['x'] false]

def pipCmdChars : Str := "pip install foo".toList

def c9Script : List Step := [Step.terminal "ls".toList, Step.terminal pipCmdChars]

def c9AScript : List Step := [Step.terminal pipCmdChars]

/-- A scene mid-reveal: one text segment "a\nb" with one character shown,
reveal timer armed on it. -/
def pauseDemoState : SceneState :=
  { initState [] with segments := [.text ['a', '\n', 'b'] 1 false 0],
                      typingTimer := some ⟨0, 1⟩ }

/-- A scene whose buffer ends in a fully visible text segment. -/
def c10DemoState : SceneState :=
  { initState [] with segments := [.text ['h', 'i'] 2 false 0] }

/-! ## Lemmas about the string post-processing functions -/

theorem removeOccsFuel_of_head_notMem (c0 : Char) (p : Str) :
    ∀ (fuel : ℕ) (s : Str), c0 ∉ s → removeOccsFuel fuel (c0 :: p) s = s := by
  intro fuel
  induction fuel with
  | zero => intro s _; rfl
  | succ n ih =>
    intro s hs
    cases s with
    | nil => rfl
    | cons c rest =>
      have hc : ¬ (c0 = c) := fun e => hs (e ▸ List.mem_cons_self c rest)
      have hpre : isPrefixList (c0 :: p) (c :: rest) = false := by
        simp [isPrefixList, hc]
      rw [removeOccsFuel, if_neg]
      · rw [ih rest fun h => hs (List.mem_cons_of_mem c h)]
      · rintro ⟨-, h2⟩
        rw [hpre] at h2
        exact Bool.false_ne_true h2

theorem strip_noop (s : Str) (h : '\x7b' ∉ s) : strip_yaml_markers s = s := by
  have h1 : removeOccs YAML_BLOCK_START s = s :=
    removeOccsFuel_of_head_notMem '\x7b' _ _ s h
  have h2 : removeOccs YAML_BLOCK_END s = s :=
    removeOccsFuel_of_head_notMem '\x7b' _ _ s h
  rw [strip_yaml_markers, h1, h2]

theorem fix_mem (s : Str) : ∀ c ∈ fix_incomplete_markup s, c ∈ s := by
  intro c hc
  by_cases hcond : '[' ∈ s ∧ ']' ∉ s.reverse.takeWhile (fun x => x != '[')
  · simp only [fix_incomplete_markup, if_pos hcond] at hc
    have h1 : c ∈ (s.reverse.dropWhile (fun x => x != '[')).drop 1 := List.mem_reverse.mp hc
    have h2 : c ∈ s.reverse.dropWhile (fun x => x != '[') := List.mem_of_mem_drop h1
    exact List.mem_reverse.mp ((List.dropWhile_sublist _).subset h2)
  · simpa only [fix_incomplete_markup, if_neg hcond] using hc

theorem dropWhile_ne_cons (l : Str) (c : Char) (h : c ∈ l) :
    ∃ t, l.dropWhile (fun x => x != c) = c :: t := by
  induction l with
  | nil => cases h
  | cons a rest ih =>
    rw [List.dropWhile_cons]
    by_cases hac : a = c
    · subst hac
      exact ⟨rest, by simp⟩
    · have hcr : c ∈ rest := by
        rcases List.mem_cons.mp h with h' | h'
        · exact absurd h'.symm hac
        · exact h'
      obtain ⟨t, ht⟩ := ih hcr
      refine ⟨t, ?_⟩
      have : ((a != c) = true) := bne_iff_ne.mpr hac
      rw [if_pos this, ht]

theorem fix_fix (s : Str) (h2 : s.count '[' ≤ 1) :
    fix_incomplete_markup (fix_incomplete_markup s) = fix_incomplete_markup s := by
  by_cases hc : '[' ∈ s ∧ ']' ∉ s.reverse.takeWhile (fun x => x != '[')
  · have hmem : '[' ∈ s.reverse := List.mem_reverse.mpr hc.1
    obtain ⟨t, ht⟩ := dropWhile_ne_cons s.reverse '[' hmem
    have hfix : fix_incomplete_markup s = t.reverse := by
      simp only [fix_incomplete_markup, if_pos hc, ht, List.drop_succ_cons, List.drop_zero]
    have hcount : '[' ∉ t := by
      intro hmt
      have e1 : s.reverse.takeWhile (fun x => x != '[') ++ s.reverse.dropWhile (fun x => x != '[')
          = s.reverse := List.takeWhile_append_dropWhile _ _
      have hge : 2 ≤ s.reverse.count '[' := by
        rw [← e1, List.count_append, ht, List.count_cons_self]
        have hpos : 0 < t.count '[' := List.count_pos_iff.mpr hmt
        omega
      rw [List.count_reverse] at hge
      omega
    have hnot : '[' ∉ t.reverse := fun hx => hcount (List.mem_reverse.mp hx)
    rw [hfix]
    simp only [fix_incomplete_markup]
    rw [if_neg]
    rintro ⟨hmem', -⟩
    exact hnot hmem'
  · simp only [fix_incomplete_markup, if_neg hc]

/-- C3 counterexample: clean is not idempotent.  On "a[b[c" one
application truncates at the last "[" giving "a[b", which still ends in
an incomplete tag, so a second application truncates again to "a":
clean(clean(x)) differs from clean(x). -/
theorem C3_clean_not_idempotent :
    clean (clean ['a', '[', 'b', '[', 'c']) ≠ clean ['a', '[', 'b', '[', 'c'] := by decide

/-- C3 (amended): clean(clean(x)) = clean(x) holds for every string that
contains no brace character (so marker stripping is a no-op and cannot
create fresh marker occurrences) and at most one "[" (so at most one
truncation at the last "[" can ever apply); the unrestricted idempotence
stated by the spec fails. -/
theorem C3_clean_idempotent_amended (s : Str) (h1 : '\x7b' ∉ s) (h2 : s.count '[' ≤ 1) :
    clean (clean s) = clean s := by
  have hs : strip_yaml_markers s = s := strip_noop s h1
  have h1f : '\x7b' ∉ fix_incomplete_markup s := fun hc => h1 (fix_mem s _ hc)
  have hsf : strip_yaml_markers (fix_incomplete_markup s) = fix_incomplete_markup s :=
    strip_noop _ h1f
  show fix_incomplete_markup (strip_yaml_markers (fix_incomplete_markup (strip_yaml_markers s)))
      = fix_incomplete_markup (strip_yaml_markers s)
  rw [hs, hsf]
  exact fix_fix s h2

/-- Witness for C3 (amended) at the concrete string "a[b". -/
theorem C3_clean_idempotent_amended_witness :
    clean (clean ['a', '[', 'b']) = clean ['a', '[', 'b'] :=
  C3_clean_idempotent_amended ['a', '[', 'b'] (by decide) (by decide)

/-! ## Lemmas about the segment buffer -/

theorem modifyAt_get_self (f : Segment → Segment) :
    ∀ (l : List Segment) (i : ℕ) (a : Segment), l.get? i = some a →
      (modifyAt l i f).get? i = some (f a) := by
  intro l
  induction l with
  | nil => intro i a h; cases h
  | cons x t ih =>
    intro i a h
    cases i with
    | zero => cases h; rfl
    | succ n => exact ih n a h

theorem modifyAt_mem (f : Segment → Segment) :
    ∀ (l : List Segment) (i : ℕ) (seg : Segment), seg ∈ modifyAt l i f →
      seg ∈ l ∨ ∃ a, l.get? i = some a ∧ seg = f a := by
  intro l
  induction l with
  | nil => intro i seg h; cases h
  | cons x t ih =>
    intro i seg h
    cases i with
    | zero =>
      rcases List.mem_cons.mp h with h' | h'
      · exact Or.inr ⟨x, rfl, h'⟩
      · exact Or.inl (List.mem_cons_of_mem x h')
    | succ n =>
      rcases List.mem_cons.mp h with h' | h'
      · exact Or.inl (h' ▸ List.mem_cons_self x t)
      · rcases ih n seg h' with h'' | h''
        · exact Or.inl (List.mem_cons_of_mem x h'')
        · exact Or.inr h''

theorem handleDisplay_mem (s : SceneState) (c : Str) (cl : Bool) (seg : Segment)
    (h : seg ∈ (handleDisplay s c cl).segments) :
    seg ∈ s.segments ∨ seg = spacerSegment ∨ seg = .text c c.length false 0 := by
  simp only [handleDisplay] at h
  rcases List.mem_append.mp h with h' | h'
  · split at h'
    · cases h'
    · split at h'
      · split at h'
        · rcases List.mem_append.mp h' with h'' | h''
          · exact Or.inl h''
          · exact Or.inr (Or.inl (List.mem_singleton.mp h''))
        · exact Or.inl h'
      · exact Or.inl h'
  · exact Or.inr (Or.inr (List.mem_singleton.mp h'))

theorem terminalSegs_mem (segs : List Segment) (seg : Segment) (h : seg ∈ terminalSegs segs) :
    seg ∈ segs ∨ seg = spacerSegment := by
  unfold terminalSegs at h
  split at h
  · split at h
    · rcases List.mem_append.mp h with h' | h'
      · exact Or.inl h'
      · exact Or.inr (List.mem_singleton.mp h')
    · exact Or.inl h
  · exact Or.inl h

/-! ## Helpers about the suspension and timer invariants -/

theorem susp_unique (s : SceneState) (hi : Inv s) :
    (s.waitingInput = true → s.waitingCommand = false ∧ s.waitingCompletion = false) ∧
    (s.waitingCommand = true → s.waitingInput = false ∧ s.waitingCompletion = false) ∧
    (s.waitingCompletion = true → s.waitingInput = false ∧ s.waitingCommand = false) := by
  have h := hi.atMostOne
  unfold suspCount at h
  cases h1 : s.waitingInput <;> cases h2 : s.waitingCommand <;>
    cases h3 : s.waitingCompletion <;> simp [h1, h2, h3] at h ⊢

theorem timers_excl_typing (s : SceneState) (hi : Inv s) (t : TypingTimer)
    (h : s.typingTimer = some t) : s.pauseTimer = none ∧ s.waitTimer = none := by
  have hc := hi.timersOne
  unfold timerCount at hc
  rw [h] at hc
  cases hp : s.pauseTimer <;> cases hw : s.waitTimer <;> simp [hp, hw] at hc ⊢

theorem timers_excl_pause (s : SceneState) (hi : Inv s) (p : PauseTimer)
    (h : s.pauseTimer = some p) : s.typingTimer = none ∧ s.waitTimer = none := by
  have hc := hi.timersOne
  unfold timerCount at hc
  rw [h] at hc
  cases hp : s.typingTimer <;> cases hw : s.waitTimer <;> simp [hp, hw] at hc ⊢

theorem timers_excl_wait (s : SceneState) (hi : Inv s) (q : ℚ)
    (h : s.waitTimer = some q) : s.typingTimer = none ∧ s.pauseTimer = none := by
  have hc := hi.timersOne
  unfold timerCount at hc
  rw [h] at hc
  cases hp : s.typingTimer <;> cases hw : s.pauseTimer <;> simp [hp, hw] at hc ⊢

theorem timersNone_of_not_clear (s : SceneState) (hi : Inv s)
    (h : flagsClear s → False) : timersNone s := by
  refine ⟨?_, ?_, ?_⟩
  · cases ht : s.typingTimer with
    | none => rfl
    | some t => exact absurd (hi.typingClear (by rw [ht]; rfl)) h
  · cases ht : s.pauseTimer with
    | none => rfl
    | some p => exact absurd (hi.pauseClear (by rw [ht]; rfl)) h
  · cases ht : s.waitTimer with
    | none => rfl
    | some q => exact absurd (hi.waitClear (by rw [ht]; rfl)) h

theorem inflight_none_of_clear (s : SceneState) (hi : Inv s) (hf : flagsClear s) :
    s.inflightCmd = none := by
  cases h : s.inflightCmd with
  | none => rfl
  | some c =>
    have hc := hi.inflightCompl (by rw [h]; rfl)
    rw [hf.2.2] at hc
    exact absurd hc (by simp)

theorem inv_of_clear (s : SceneState) (hf : flagsClear s) (hb : s.badAdvance = false)
    (hin : s.inflightCmd = none) (hto : timeoutOK s) (hsegs : ∀ seg ∈ s.segments, segOK seg)
    (htc : timerCount s ≤ 1) : Inv s := by
  refine ⟨?_, hb, htc, fun _ => hf, fun _ => hf, fun _ => hf, ?_, ?_, ?_, hto, hsegs⟩
  · simp [suspCount, hf.1, hf.2.1, hf.2.2]
  · intro hw; rw [hf.2.1] at hw; exact absurd hw (by simp)
  · intro hw; rw [hf.2.2] at hw; exact absurd hw (by simp)
  · intro hs; rw [hin] at hs; exact absurd hs (by simp)

theorem execPre_inv (s : SceneState) (h : ExecPre s) : Inv s := by
  obtain ⟨hf, ht, hin, hb, hto, hsegs⟩ := h
  refine inv_of_clear s hf hb hin hto hsegs ?_
  simp [timerCount, ht.1, ht.2.1, ht.2.2]

theorem execPre_of_clear (s : SceneState) (hi : Inv s) (hf : flagsClear s)
    (ht : timersNone s) : ExecPre s :=
  ⟨hf, ht, inflight_none_of_clear s hi hf, hi.noBad, hi.timeoutInv, hi.segsOK⟩

/-! ## Lemmas about _execute_next_step -/

theorem execFuel_step (n : ℕ) (s : SceneState) (stp : Step)
    (hw : s.waitingCompletion = false) (hg : s.script.get? s.idx = some stp) :
    execFuel (n + 1) s = dispatchStep s n stp := by
  rw [execFuel, if_neg (by simp [hw])]
  split
  next h => rw [hg] at h; cases h
  next stp2 h => rw [hg] at h; injection h with h; subst h; cases stp <;> rfl

theorem execFuel_stuck (n : ℕ) (s : SceneState) (hw : s.waitingCompletion = true) :
    execFuel n s = s := by
  cases n with
  | zero => rfl
  | succ m => rw [execFuel, if_pos hw]

theorem execFuel_done (n : ℕ) (s : SceneState) (hg : s.script.get? s.idx = none) :
    execFuel n s = s := by
  cases n with
  | zero => rfl
  | succ m =>
    rw [execFuel]
    by_cases hw : s.waitingCompletion = true
    · rw [if_pos hw]
    · rw [if_neg hw, hg]

theorem execFuel_frame (fuel : ℕ) :
    ∀ s : SceneState, (execFuel fuel s).script = s.script ∧
      (execFuel fuel s).gatewayCalls = s.gatewayCalls ∧
      (execFuel fuel s).waitingCompletion = s.waitingCompletion ∧
      (execFuel fuel s).inflightCmd = s.inflightCmd ∧
      s.idx ≤ (execFuel fuel s).idx := by
  induction fuel with
  | zero => intro s; exact ⟨rfl, rfl, rfl, rfl, le_refl _⟩
  | succ n ih =>
    intro s
    by_cases hw : s.waitingCompletion = true
    · rw [execFuel_stuck _ _ hw]; exact ⟨rfl, rfl, rfl, rfl, le_refl _⟩
    · rw [Bool.not_eq_true] at hw
      cases hg : s.script.get? s.idx with
      | none => rw [execFuel_done _ _ hg]; exact ⟨rfl, rfl, rfl, rfl, le_refl _⟩
      | some stp =>
        rw [execFuel_step n s stp hw hg]
        cases stp with
        | display c cl =>
          have h := ih (handleDisplay (bumpIdx s) c cl)
          exact ⟨h.1, h.2.1, h.2.2.1, h.2.2.2.1, le_trans (Nat.le_succ _) h.2.2.2.2⟩
        | displayYaml c t =>
          have h := ih (handleDisplayYaml (bumpIdx s) c t)
          exact ⟨h.1, h.2.1, h.2.2.1, h.2.2.2.1, le_trans (Nat.le_succ _) h.2.2.2.2⟩
        | displayPython c t =>
          have h := ih (handleDisplayPython (bumpIdx s) c t)
          exact ⟨h.1, h.2.1, h.2.2.1, h.2.2.2.1, le_trans (Nat.le_succ _) h.2.2.2.2⟩
        | gradient c =>
          have h := ih (handleGradient (bumpIdx s) c)
          exact ⟨h.1, h.2.1, h.2.2.1, h.2.2.2.1, le_trans (Nat.le_succ _) h.2.2.2.2⟩
        | type c sp => exact ⟨rfl, rfl, rfl, rfl, Nat.le_succ _⟩
        | terminal cmd => exact ⟨rfl, rfl, rfl, rfl, Nat.le_succ _⟩
        | wait secs => exact ⟨rfl, rfl, rfl, rfl, Nat.le_succ _⟩
        | waitForInput pr k => exact ⟨rfl, rfl, rfl, rfl, Nat.le_succ _⟩

theorem suspCount_of_clear (s : SceneState) (hf : flagsClear s) : suspCount s ≤ 1 := by
  simp [suspCount, hf.1, hf.2.1, hf.2.2]

theorem suspCount_le_one (s : SceneState)
    (h : s.waitingInput = false ∧ s.waitingCommand = false ∨
      s.waitingInput = false ∧ s.waitingCompletion = false ∨
      s.waitingCommand = false ∧ s.waitingCompletion = false) : suspCount s ≤ 1 := by
  unfold suspCount
  rcases h with ⟨h1, h2⟩ | ⟨h1, h2⟩ | ⟨h1, h2⟩ <;> rw [h1, h2] <;> simp <;> split <;> omega

theorem timerCount_le_one (s : SceneState)
    (h : s.typingTimer = none ∧ s.pauseTimer = none ∨
      s.typingTimer = none ∧ s.waitTimer = none ∨
      s.pauseTimer = none ∧ s.waitTimer = none) : timerCount s ≤ 1 := by
  unfold timerCount
  rcases h with ⟨h1, h2⟩ | ⟨h1, h2⟩ | ⟨h1, h2⟩ <;> rw [h1, h2] <;> simp <;> split <;> omega

theorem bumpIdx_pre (s : SceneState) (h : ExecPre s) : ExecPre (bumpIdx s) := by
  obtain ⟨hf, ht, hin, hb, hto, hsegs⟩ := h
  refine ⟨hf, ht, hin, ?_, hto, hsegs⟩
  show (s.badAdvance || s.waitingInput || s.waitingCommand) = false
  rw [hb, hf.1, hf.2.1]
  rfl

theorem handleTerminal_none_proj (s : SceneState) (cmd : Str) (h : s.terminal = none) :
    (handleTerminal s cmd).terminal = some (mkTerminalW cmd) ∧
    (handleTerminal s cmd).firstTerminalCmd = some cmd := by
  constructor
  · simp only [handleTerminal]
    rw [h]
  · simp only [handleTerminal]
    rw [h]

theorem handleTerminal_some_proj (s : SceneState) (cmd : Str) (w : TerminalW)
    (h : s.terminal = some w) :
    (handleTerminal s cmd).terminal = some { w with inputValue := cmd, inputDisabled := false } ∧
    (handleTerminal s cmd).firstTerminalCmd = s.firstTerminalCmd := by
  constructor
  · simp only [handleTerminal]
    rw [h]
  · simp only [handleTerminal]
    rw [h]

theorem execFuel_pre_inv (fuel : ℕ) :
    ∀ s : SceneState, ExecPre s → Inv (execFuel fuel s) := by
  induction fuel with
  | zero => intro s h; exact execPre_inv s h
  | succ n ih =>
    intro s h
    obtain ⟨hf, ht, hin, hb, hto, hsegs⟩ := h
    cases hg : s.script.get? s.idx with
    | none =>
      rw [execFuel_done _ _ hg]
      exact execPre_inv s ⟨hf, ht, hin, hb, hto, hsegs⟩
    | some stp =>
      rw [execFuel_step n s stp hf.2.2 hg]
      have hpre := bumpIdx_pre s ⟨hf, ht, hin, hb, hto, hsegs⟩
      obtain ⟨hf', ht', hin', hb', hto', hsegs'⟩ := hpre
      cases stp with
      | display c cl =>
        simp only [dispatchStep]
        apply ih
        refine ⟨hf', ht', hin', hb', hto', ?_⟩
        intro seg hseg
        rcases handleDisplay_mem _ _ _ _ hseg with h' | h' | h'
        · exact hsegs' seg h'
        · rw [h']; exact Nat.le.refl
        · rw [h']; exact Nat.le.refl
      | displayYaml c t =>
        simp only [dispatchStep]
        apply ih
        refine ⟨hf', ht', hin', hb', hto', ?_⟩
        intro seg hseg
        rcases List.mem_append.mp hseg with h' | h'
        · exact hsegs' seg h'
        · rw [List.mem_singleton.mp h']; exact trivial
      | displayPython c t =>
        simp only [dispatchStep]
        apply ih
        refine ⟨hf', ht', hin', hb', hto', ?_⟩
        intro seg hseg
        rcases List.mem_append.mp hseg with h' | h'
        · exact hsegs' seg h'
        · rw [List.mem_singleton.mp h']; exact trivial
      | gradient c =>
        simp only [dispatchStep]
        apply ih
        refine ⟨hf', ht', hin', hb', hto', ?_⟩
        intro seg hseg
        rcases List.mem_append.mp hseg with h' | h'
        · exact hsegs' seg h'
        · rw [List.mem_singleton.mp h']; exact Nat.le.refl
      | type c sp =>
        simp only [dispatchStep]
        refine inv_of_clear _ hf' hb' hin' hto' ?_ ?_
        · intro seg hseg
          rcases List.mem_append.mp hseg with h' | h'
          · exact hsegs' seg h'
          · rw [List.mem_singleton.mp h']; exact Nat.zero_le _
        · exact timerCount_le_one _ (Or.inr (Or.inr ⟨ht'.2.1, ht'.2.2⟩))
      | wait secs =>
        simp only [dispatchStep]
        refine inv_of_clear _ hf' hb' hin' hto' hsegs' ?_
        exact timerCount_le_one _ (Or.inl ⟨ht'.1, ht'.2.1⟩)
      | waitForInput pr k =>
        simp only [dispatchStep]
        refine ⟨?_, hb', ?_, ?_, ?_, ?_, ?_, ?_, ?_, hto', hsegs'⟩
        · exact suspCount_le_one _ (Or.inr (Or.inr ⟨hf'.2.1, hf'.2.2⟩))
        · exact timerCount_le_one _ (Or.inl ⟨ht'.1, ht'.2.1⟩)
        · intro hty
          have h1 : (bumpIdx s).typingTimer.isSome = true := hty
          rw [ht'.1] at h1
          simp at h1
        · intro hp
          have h1 : (bumpIdx s).pauseTimer.isSome = true := hp
          rw [ht'.2.1] at h1
          simp at h1
        · intro hw
          have h1 : (bumpIdx s).waitTimer.isSome = true := hw
          rw [ht'.2.2] at h1
          simp at h1
        · intro hw
          have h1 : (bumpIdx s).waitingCommand = true := hw
          rw [hf'.2.1] at h1
          cases h1
        · intro hc
          have h1 : (bumpIdx s).waitingCompletion = true := hc
          rw [hf'.2.2] at h1
          cases h1
        · intro hs2
          have h1 : (bumpIdx s).inflightCmd.isSome = true := hs2
          rw [hin'] at h1
          simp at h1
      | terminal cmd =>
        simp only [dispatchStep]
        refine ⟨?_, hb', ?_, ?_, ?_, ?_, ?_, ?_, ?_, ?_, ?_⟩
        · exact suspCount_le_one _ (Or.inr (Or.inl ⟨hf'.1, hf'.2.2⟩))
        · exact timerCount_le_one _ (Or.inl ⟨ht'.1, ht'.2.1⟩)
        · intro hty
          have h1 : (bumpIdx s).typingTimer.isSome = true := hty
          rw [ht'.1] at h1
          simp at h1
        · intro hp
          have h1 : (bumpIdx s).pauseTimer.isSome = true := hp
          rw [ht'.2.1] at h1
          simp at h1
        · intro hw
          have h1 : (bumpIdx s).waitTimer.isSome = true := hw
          rw [ht'.2.2] at h1
          simp at h1
        · intro _
          refine ⟨rfl, ?_, cmd, ?_⟩
          · show 1 ≤ s.idx + 1
            omega
          · show s.script.get? (s.idx + 1 - 1) = some (.terminal cmd)
            simpa using hg
        · intro hc
          have h1 : (bumpIdx s).waitingCompletion = true := hc
          rw [hf'.2.2] at h1
          cases h1
        · intro hs2
          have h1 : (bumpIdx s).inflightCmd.isSome = true := hs2
          rw [hin'] at h1
          simp at h1
        · cases hterm : (bumpIdx s).terminal with
          | none =>
            obtain ⟨hT, hF⟩ := handleTerminal_none_proj (bumpIdx s) cmd hterm
            cases hfc : (bumpIdx s).firstTerminalCmd with
            | some c0 =>
              obtain ⟨w, hw, -⟩ := (hto'.2 c0 hfc).1
              rw [hterm] at hw
              cases hw
            | none =>
              have hgw : (bumpIdx s).gatewayCalls = [] := (hto'.1 hfc).2
              constructor
              · intro h'
                rw [hF] at h'
                cases h'
              · intro c0 h'
                rw [hF] at h'
                injection h' with h'
                subst h'
                refine ⟨⟨mkTerminalW cmd, hT, rfl⟩, ?_⟩
                intro p hp
                have h2 : p ∈ (bumpIdx s).gatewayCalls := hp
                rw [hgw] at h2
                cases h2
          | some w =>
            obtain ⟨hT, hF⟩ := handleTerminal_some_proj (bumpIdx s) cmd w hterm
            constructor
            · intro h'
              rw [hF] at h'
              have h2 := (hto'.1 h').1
              rw [hterm] at h2
              cases h2
            · intro c0 h'
              rw [hF] at h'
              obtain ⟨⟨w2, hw2, hwt⟩, hcalls⟩ := hto'.2 c0 h'
              rw [hterm] at hw2
              injection hw2 with hw2
              subst hw2
              refine ⟨⟨_, hT, hwt⟩, fun p hp => hcalls p hp⟩
        · intro seg hseg
          rcases terminalSegs_mem _ _ hseg with h' | h'
          · exact hsegs' seg h'
          · rw [h']; exact Nat.le.refl

theorem execNext_pre_inv (s : SceneState) (h : ExecPre s) : Inv (execNext s) :=
  execFuel_pre_inv (s.script.length - s.idx) s h

theorem execNext_advances (s : SceneState) (hw : s.waitingCompletion = false)
    (hlt : s.idx < s.script.length) : s.idx + 1 ≤ (execNext s).idx := by
  obtain ⟨stp, hg⟩ : ∃ stp, s.script.get? s.idx = some stp := by
    cases hgg : s.script.get? s.idx with
    | none =>
      have := List.get?_eq_none.mp hgg
      omega
    | some stp => exact ⟨stp, rfl⟩
  have hfuel : s.script.length - s.idx = (s.script.length - s.idx - 1) + 1 := by omega
  rw [execNext, hfuel, execFuel_step _ s stp hw hg]
  cases stp with
  | display c cl =>
    exact (execFuel_frame (s.script.length - s.idx - 1) (handleDisplay (bumpIdx s) c cl)).2.2.2.2
  | displayYaml c t =>
    exact (execFuel_frame (s.script.length - s.idx - 1) (handleDisplayYaml (bumpIdx s) c t)).2.2.2.2
  | displayPython c t =>
    exact (execFuel_frame (s.script.length - s.idx - 1) (handleDisplayPython (bumpIdx s) c t)).2.2.2.2
  | gradient c =>
    exact (execFuel_frame (s.script.length - s.idx - 1) (handleGradient (bumpIdx s) c)).2.2.2.2
  | type c sp => exact le_refl _
  | terminal cmd => exact le_refl _
  | wait secs => exact le_refl _
  | waitForInput pr k => exact le_refl _

theorem execNext_advances_from (s : SceneState) (j : ℕ) (hj : s.idx = j)
    (hw : s.waitingCompletion = false) (hlt : j < s.script.length) :
    j + 1 ≤ (execNext s).idx := by
  subst hj
  exact execNext_advances s hw hlt

/-! ## Invariant preservation by each external event -/

theorem segOK_bump (a : Segment) (h : segOK a) : segOK (bumpGradient a) := by
  cases a with
  | code c lang t => exact trivial
  | text c v g o => cases g <;> exact h

theorem timeoutOK_transport (s s' : SceneState) (hto : timeoutOK s)
    (h1 : s'.firstTerminalCmd = s.firstTerminalCmd)
    (h2 : s'.terminal = s.terminal.map disableInput)
    (h3 : s'.gatewayCalls = s.gatewayCalls) : timeoutOK s' := by
  constructor
  · intro hn
    rw [h1] at hn
    have h0 := hto.1 hn
    refine ⟨?_, ?_⟩
    · rw [h2, h0.1]; rfl
    · rw [h3]; exact h0.2
  · intro c0 hc
    rw [h1] at hc
    obtain ⟨⟨w, hw, hwt⟩, hcalls⟩ := hto.2 c0 hc
    refine ⟨⟨disableInput w, ?_, hwt⟩, ?_⟩
    · rw [h2, hw]; rfl
    · rw [h3]; exact hcalls

theorem typeTick_inv (s : SceneState) (hi : Inv s) : Inv (typeTickStep s) := by
  unfold typeTickStep
  split
  next => exact hi
  next t ht =>
    have hf : flagsClear s := hi.typingClear (by rw [ht]; rfl)
    have hex := timers_excl_typing s hi t ht
    have hin := inflight_none_of_clear s hi hf
    split
    next c v g o hseg =>
      split
      next hv =>
        exact execNext_pre_inv _ ⟨hf, ⟨rfl, hex.1, hex.2⟩, hin, hi.noBad, hi.timeoutInv, hi.segsOK⟩
      next hv =>
        have hsegs2 : ∀ seg ∈ modifyAt s.segments t.segIdx (setVisible (v + 1)), segOK seg := by
          intro seg hseg2
          rcases modifyAt_mem _ _ _ _ hseg2 with h' | ⟨a, ha, h'⟩
          · exact hi.segsOK seg h'
          · rw [hseg] at ha
            injection ha with ha
            rw [h', ← ha]
            show v + 1 ≤ c.length
            omega
        split
        next hpause =>
          refine inv_of_clear _ hf hi.noBad hin hi.timeoutInv hsegs2 ?_
          exact timerCount_le_one _ (Or.inr (Or.inl ⟨rfl, hex.2⟩))
        next hpause =>
          refine inv_of_clear _ hf hi.noBad hin hi.timeoutInv hsegs2 ?_
          exact timerCount_le_one _ (Or.inr (Or.inr ⟨hex.1, hex.2⟩))
    next hseg => exact hi

theorem pauseFire_inv (s : SceneState) (hi : Inv s) : Inv (pauseFireStep s) := by
  unfold pauseFireStep
  split
  next p hp =>
    have hf : flagsClear s := hi.pauseClear (by rw [hp]; rfl)
    have hex := timers_excl_pause s hi p hp
    refine inv_of_clear _ hf hi.noBad (inflight_none_of_clear s hi hf) hi.timeoutInv hi.segsOK ?_
    exact timerCount_le_one _ (Or.inr (Or.inr ⟨rfl, hex.2⟩))
  next => exact hi

theorem waitFire_inv (s : SceneState) (hi : Inv s) : Inv (waitFireStep s) := by
  unfold waitFireStep
  split
  next q hq =>
    have hf : flagsClear s := hi.waitClear (by rw [hq]; rfl)
    have hex := timers_excl_wait s hi q hq
    exact execNext_pre_inv _
      ⟨hf, ⟨hex.1, hex.2, rfl⟩, inflight_none_of_clear s hi hf, hi.noBad, hi.timeoutInv, hi.segsOK⟩
  next => exact hi

theorem keyStep_inv (s : SceneState) (k : Str) (hi : Inv s) : Inv (keyStep s k) := by
  unfold keyStep
  split
  next hcond =>
    have hw := hcond.1
    have hsu := (susp_unique s hi).1 hw
    have htn : timersNone s := timersNone_of_not_clear s hi (fun hf => absurd hw (by simp [hf.1]))
    apply execNext_pre_inv
    refine ⟨⟨rfl, hsu.1, hsu.2⟩, ⟨htn.1, htn.2.1, htn.2.2⟩, ?_, hi.noBad, hi.timeoutInv, hi.segsOK⟩
    cases hinf : s.inflightCmd with
    | none => rfl
    | some c =>
      have hc := hi.inflightCompl (by rw [hinf]; rfl)
      rw [hsu.2] at hc
      cases hc
  next => exact hi

theorem menuStep_inv (s : SceneState) (a : Str) (hi : Inv s) : Inv (menuStep s a) := by
  unfold menuStep
  split
  next hw =>
    have hsu := (susp_unique s hi).2.1 hw
    have htn : timersNone s :=
      timersNone_of_not_clear s hi (fun hf => absurd hw (by simp [hf.2.1]))
    have hinfl : s.inflightCmd = none := by
      cases hinf : s.inflightCmd with
      | none => rfl
      | some c =>
        have hc := hi.inflightCompl (by rw [hinf]; rfl)
        rw [hsu.2] at hc
        cases hc
    split
    next hrun =>
      split
      next w hterm =>
        split
        next cmd hstep =>
          refine ⟨?_, hi.noBad, ?_, ?_, ?_, ?_, ?_, fun _ => rfl, fun _ => rfl, ?_, hi.segsOK⟩
          · exact suspCount_le_one _ (Or.inl ⟨hsu.1, rfl⟩)
          · exact timerCount_le_one _ (Or.inl ⟨htn.1, htn.2.1⟩)
          · intro h
            have h' : s.typingTimer.isSome = true := h
            rw [htn.1] at h'
            simp at h'
          · intro h
            have h' : s.pauseTimer.isSome = true := h
            rw [htn.2.1] at h'
            simp at h'
          · intro h
            have h' : s.waitTimer.isSome = true := h
            rw [htn.2.2] at h'
            simp at h'
          · intro hww
            cases hww
          · constructor
            · intro hn
              exfalso
              have hn' : s.firstTerminalCmd = none := hn
              have h0 := (hi.timeoutInv.1 hn').1
              have hmap : s.terminal.map disableInput = some w := hterm
              rw [h0] at hmap
              cases hmap
            · intro c0 hc
              have hc' : s.firstTerminalCmd = some c0 := hc
              obtain ⟨⟨w0, hw0, hwt0⟩, hcalls⟩ := hi.timeoutInv.2 c0 hc'
              have hmap : s.terminal.map disableInput = some w := hterm
              rw [hw0] at hmap
              injection hmap with hmap
              refine ⟨⟨w, hterm, by rw [← hmap]; exact hwt0⟩, ?_⟩
              intro p hp
              rcases List.mem_append.mp hp with h' | h'
              · exact hcalls p h'
              · rw [List.mem_singleton.mp h']
                show w.timeout = chooseTimeout c0
                rw [← hmap]
                exact hwt0
        next hstep =>
          refine inv_of_clear _ ⟨hsu.1, rfl, hsu.2⟩ hi.noBad hinfl
            (timeoutOK_transport s _ hi.timeoutInv rfl rfl rfl) hi.segsOK ?_
          exact timerCount_le_one _ (Or.inl ⟨htn.1, htn.2.1⟩)
      next hterm =>
        refine inv_of_clear _ ⟨hsu.1, rfl, hsu.2⟩ hi.noBad hinfl
          (timeoutOK_transport s _ hi.timeoutInv rfl rfl rfl) hi.segsOK ?_
        exact timerCount_le_one _ (Or.inl ⟨htn.1, htn.2.1⟩)
    next hrun =>
      split
      next hskip =>
        split
        next w hterm =>
          apply execNext_pre_inv
          refine ⟨⟨hsu.1, rfl, hsu.2⟩, ⟨htn.1, htn.2.1, htn.2.2⟩, hinfl, hi.noBad, ?_, hi.segsOK⟩
          constructor
          · intro hn
            exfalso
            have hn' : s.firstTerminalCmd = none := hn
            have h0 := (hi.timeoutInv.1 hn').1
            have hmap : s.terminal.map disableInput = some w := hterm
            rw [h0] at hmap
            cases hmap
          · intro c0 hc
            have hc' : s.firstTerminalCmd = some c0 := hc
            obtain ⟨⟨w0, hw0, hwt0⟩, hcalls⟩ := hi.timeoutInv.2 c0 hc'
            have hmap : s.terminal.map disableInput = some w := hterm
            rw [hw0] at hmap
            injection hmap with hmap
            refine ⟨⟨{ w with logLines := w.logLines ++ [skipNotice] }, rfl, ?_⟩, ?_⟩
            · show w.timeout = chooseTimeout c0
              rw [← hmap]
              exact hwt0
            · intro p hp
              exact hcalls p hp
        next hterm =>
          apply execNext_pre_inv
          refine ⟨⟨hsu.1, rfl, hsu.2⟩, ⟨htn.1, htn.2.1, htn.2.2⟩, hinfl, hi.noBad,
            timeoutOK_transport s _ hi.timeoutInv rfl rfl rfl, hi.segsOK⟩
      next hskip =>
        refine inv_of_clear _ ⟨hsu.1, rfl, hsu.2⟩ hi.noBad hinfl
          (timeoutOK_transport s _ hi.timeoutInv rfl rfl rfl) hi.segsOK ?_
        exact timerCount_le_one _ (Or.inl ⟨htn.1, htn.2.1⟩)
  next => exact hi

theorem commandComplete_inv (s : SceneState) (hi : Inv s) : Inv (commandCompleteStep s) := by
  unfold commandCompleteStep
  split
  next c hin =>
    have hcompl : s.waitingCompletion = true := hi.inflightCompl (by rw [hin]; rfl)
    have hsu := (susp_unique s hi).2.2 hcompl
    have htn : timersNone s :=
      timersNone_of_not_clear s hi (fun hf => absurd hcompl (by simp [hf.2.2]))
    apply execNext_pre_inv
    exact ⟨⟨hsu.1, hsu.2, rfl⟩, ⟨htn.1, htn.2.1, htn.2.2⟩, rfl, hi.noBad, hi.timeoutInv, hi.segsOK⟩
  next => exact hi

theorem animTick_inv (s : SceneState) (hi : Inv s) : Inv (animTickStep s) := by
  unfold animTickStep
  split
  next h =>
    refine ⟨hi.atMostOne, hi.noBad, hi.timersOne, hi.typingClear, hi.pauseClear, hi.waitClear,
      hi.cmdStep, hi.complInflight, hi.inflightCompl, hi.timeoutInv, ?_⟩
    intro seg hseg
    obtain ⟨a, ha, h'⟩ := List.mem_map.mp hseg
    rw [← h']
    exact segOK_bump a (hi.segsOK a ha)
  next => exact hi

theorem hintTick_inv (s : SceneState) (hi : Inv s) : Inv (hintTickStep s) := by
  unfold hintTickStep
  split
  next h =>
    exact ⟨hi.atMostOne, hi.noBad, hi.timersOne, hi.typingClear, hi.pauseClear, hi.waitClear,
      hi.cmdStep, hi.complInflight, hi.inflightCompl, hi.timeoutInv, hi.segsOK⟩
  next => exact hi

theorem unmount_inv (s : SceneState) (hi : Inv s) : Inv (unmountStep s) := by
  refine ⟨hi.atMostOne, hi.noBad, ?_, ?_, hi.pauseClear, hi.waitClear,
    hi.cmdStep, hi.complInflight, hi.inflightCompl, hi.timeoutInv, hi.segsOK⟩
  · cases hp : s.pauseTimer with
    | some p => exact timerCount_le_one _ (Or.inr (Or.inl ⟨rfl, (timers_excl_pause s hi p hp).2⟩))
    | none => exact timerCount_le_one _ (Or.inl ⟨rfl, hp⟩)
  · intro h
    have h' : (none : Option TypingTimer).isSome = true := h
    simp at h'

theorem stepEv_inv (e : Event) (s : SceneState) (hi : Inv s) : Inv (stepEv e s) := by
  cases e with
  | typeTick => exact typeTick_inv s hi
  | pauseFire => exact pauseFire_inv s hi
  | waitFire => exact waitFire_inv s hi
  | keyEvent k => exact keyStep_inv s k hi
  | menuEvent a => exact menuStep_inv s a hi
  | commandComplete => exact commandComplete_inv s hi
  | animTick => exact animTick_inv s hi
  | hintTick => exact hintTick_inv s hi
  | unmount => exact unmount_inv s hi

theorem initState_pre (script : List Step) : ExecPre (initState script) := by
  refine ⟨⟨rfl, rfl, rfl⟩, ⟨rfl, rfl, rfl⟩, rfl, rfl, ⟨fun _ => ⟨rfl, rfl⟩, ?_⟩, ?_⟩
  · intro c0 h
    cases h
  · intro seg hseg
    cases hseg

theorem reachable_inv (script : List Step) (s : SceneState) (h : Reachable script s) : Inv s := by
  induction h with
  | init => exact execNext_pre_inv _ (initState_pre script)
  | step s e hr ih => exact stepEv_inv e s ih

/-! ## The reveal loop of a Type step -/

theorem typeTick_eq (s : SceneState) (i : ℕ) (sp : ℚ) (c : Str) (v : ℕ) (g : Bool) (o : ℕ)
    (ht : s.typingTimer = some ⟨i, sp⟩)
    (hseg : s.segments.get? i = some (.text c v g o)) :
    typeTickStep s =
      if c.length ≤ v then execNext { s with typingTimer := none }
      else if 0 < v + 1 - 1 ∧ c.get? (v + 1 - 1) = some '\n' ∧
          (v + 1 - 1 < 1 ∨ c.get? (v + 1 - 1 - 1) ≠ some '\n') then
        { s with segments := modifyAt s.segments i (setVisible (v + 1)),
                 typingTimer := none, pauseTimer := some ⟨i, sp, narrativePauseDelay⟩ }
      else { s with segments := modifyAt s.segments i (setVisible (v + 1)) } := by
  unfold typeTickStep
  split
  next h => rw [ht] at h; cases h
  next t h =>
    rw [ht] at h
    injection h with h
    subst h
    split
    next c2 v2 g2 o2 h2 =>
      have h3 := Option.some.inj (hseg.symm.trans h2)
      injection h3 with e1 e2 e3 e4
      subst e1
      subst e2
      subst e3
      subst e4
      rfl
    next h2 =>
      exfalso
      exact h2 c v g o (hseg.symm.trans hseg ▸ hseg)

theorem typeTick_cases (s : SceneState) (i : ℕ) (sp : ℚ) (c : Str) (v : ℕ) (g : Bool) (o : ℕ)
    (ht : s.typingTimer = some ⟨i, sp⟩)
    (hseg : s.segments.get? i = some (.text c v g o)) :
    (c.length ≤ v ∧ typeTickStep s = execNext { s with typingTimer := none }) ∨
    (v < c.length ∧
      (typeTickStep s).segments = modifyAt s.segments i (setVisible (v + 1)) ∧
      (((0 < v ∧ c.get? v = some '\n' ∧ c.get? (v - 1) ≠ some '\n') ∧
        (typeTickStep s).typingTimer = none ∧
        (typeTickStep s).pauseTimer = some ⟨i, sp, narrativePauseDelay⟩) ∨
       (¬ (0 < v ∧ c.get? v = some '\n' ∧ c.get? (v - 1) ≠ some '\n') ∧
        (typeTickStep s).typingTimer = s.typingTimer ∧
        (typeTickStep s).pauseTimer = s.pauseTimer))) := by
  have heq := typeTick_eq s i sp c v g o ht hseg
  by_cases hv : c.length ≤ v
  · left
    rw [heq, if_pos hv]
    exact ⟨hv, rfl⟩
  · right
    rw [heq, if_neg hv]
    refine ⟨by omega, ?_⟩
    by_cases hp : 0 < v ∧ c.get? v = some '\n' ∧ c.get? (v - 1) ≠ some '\n'
    · rw [if_pos (show 0 < v + 1 - 1 ∧ c.get? (v + 1 - 1) = some '\n' ∧
          (v + 1 - 1 < 1 ∨ c.get? (v + 1 - 1 - 1) ≠ some '\n') from
          ⟨hp.1, hp.2.1, Or.inr hp.2.2⟩)]
      exact ⟨rfl, Or.inl ⟨hp, rfl, rfl⟩⟩
    · rw [if_neg (show ¬ (0 < v + 1 - 1 ∧ c.get? (v + 1 - 1) = some '\n' ∧
          (v + 1 - 1 < 1 ∨ c.get? (v + 1 - 1 - 1) ≠ some '\n')) from by
          rintro ⟨h1, h2, h3⟩
          apply hp
          refine ⟨h1, h2, ?_⟩
          rcases h3 with h3 | h3
          · omega
          · exact h3)]
      exact ⟨rfl, Or.inr ⟨hp, rfl, rfl⟩⟩

theorem revealRound_iterate (n : ℕ) :
    ∀ (s : SceneState) (i : ℕ) (sp : ℚ) (c : Str) (v : ℕ) (g : Bool) (o : ℕ),
      s.typingTimer = some ⟨i, sp⟩ → s.pauseTimer = none →
      s.segments.get? i = some (.text c v g o) → v + n ≤ c.length →
      (revealRound^[n] s).typingTimer = some ⟨i, sp⟩ ∧
      (revealRound^[n] s).pauseTimer = none ∧
      (revealRound^[n] s).segments.get? i = some (.text c (v + n) g o) := by
  induction n with
  | zero =>
    intro s i sp c v g o ht hp hseg hle
    exact ⟨ht, hp, hseg⟩
  | succ m ih =>
    intro s i sp c v g o ht hp hseg hle
    rw [Function.iterate_succ_apply]
    rcases typeTick_cases s i sp c v g o ht hseg with ⟨hfull, -⟩ | ⟨-, hsegs, hcase⟩
    · omega
    · have hget : (typeTickStep s).segments.get? i = some (.text c (v + 1) g o) := by
        rw [hsegs]
        exact modifyAt_get_self _ _ _ _ hseg
      have harith : v + (m + 1) = (v + 1) + m := by omega
      rw [harith]
      rcases hcase with ⟨-, hty, hpa⟩ | ⟨-, hty, hpa⟩
      · have hr : revealRound s =
            { typeTickStep s with pauseTimer := none, typingTimer := some ⟨i, sp⟩ } := by
          unfold revealRound pauseFireStep
          split
          next p hp2 =>
            rw [hpa] at hp2
            injection hp2 with hp2
            subst hp2
            rfl
          next hp2 =>
            rw [hpa] at hp2
            cases hp2
        refine ih (revealRound s) i sp c (v + 1) g o ?_ ?_ ?_ (by omega)
        · rw [hr]
        · rw [hr]
        · rw [hr]
          exact hget
      · have hr : revealRound s = typeTickStep s := by
          unfold revealRound pauseFireStep
          split
          next p hp2 =>
            rw [hpa, hp] at hp2
            cases hp2
          next => rfl
        rw [hr]
        exact ih (typeTickStep s) i sp c (v + 1) g o (hty.trans ht) (hpa.trans hp) hget (by omega)

/-- In a state with no script-driving timer armed, no key wait and no
menu wait, every event except the completion signal leaves the cursor and
the gateway-call ghost unchanged. -/
theorem frozen_state_still (R : SceneState)
    (h1 : R.typingTimer = none) (h2 : R.pauseTimer = none) (h3 : R.waitTimer = none)
    (h4 : R.waitingInput = false) (h5 : R.waitingCommand = false) :
    ∀ e : Event, e ≠ .commandComplete →
      (stepEv e R).idx = R.idx ∧ (stepEv e R).gatewayCalls = R.gatewayCalls := by
  intro e he
  cases e with
  | typeTick =>
    show (typeTickStep R).idx = R.idx ∧ (typeTickStep R).gatewayCalls = R.gatewayCalls
    unfold typeTickStep
    split
    next ht2 => exact ⟨rfl, rfl⟩
    next t ht2 =>
      rw [h1] at ht2
      cases ht2
  | pauseFire =>
    show (pauseFireStep R).idx = R.idx ∧ (pauseFireStep R).gatewayCalls = R.gatewayCalls
    unfold pauseFireStep
    split
    next p hp2 =>
      rw [h2] at hp2
      cases hp2
    next => exact ⟨rfl, rfl⟩
  | waitFire =>
    show (waitFireStep R).idx = R.idx ∧ (waitFireStep R).gatewayCalls = R.gatewayCalls
    unfold waitFireStep
    split
    next q hq2 =>
      rw [h3] at hq2
      cases hq2
    next => exact ⟨rfl, rfl⟩
  | keyEvent k =>
    show (keyStep R k).idx = R.idx ∧ (keyStep R k).gatewayCalls = R.gatewayCalls
    unfold keyStep
    rw [if_neg (by
      rintro ⟨hk, -⟩
      rw [h4] at hk
      cases hk)]
    exact ⟨rfl, rfl⟩
  | menuEvent a =>
    show (menuStep R a).idx = R.idx ∧ (menuStep R a).gatewayCalls = R.gatewayCalls
    unfold menuStep
    rw [if_neg (by
      intro hk
      rw [h5] at hk
      cases hk)]
    exact ⟨rfl, rfl⟩
  | commandComplete => exact absurd rfl he
  | animTick =>
    show (animTickStep R).idx = R.idx ∧ (animTickStep R).gatewayCalls = R.gatewayCalls
    unfold animTickStep
    split
    next => exact ⟨rfl, rfl⟩
    next => exact ⟨rfl, rfl⟩
  | hintTick =>
    show (hintTickStep R).idx = R.idx ∧ (hintTickStep R).gatewayCalls = R.gatewayCalls
    unfold hintTickStep
    split
    next => exact ⟨rfl, rfl⟩
    next => exact ⟨rfl, rfl⟩
  | unmount => exact ⟨rfl, rfl⟩

/-! ## The claims -/


/-- C1 counterexample: in ScriptedScene there is no structured-content
speed override.  On Type content consisting of the opening sentinel
marker, "ab", and the closing marker, after 15 ticks the reveal cursor
sits between the markers (the first 15 revealed characters are the whole
14-character opening marker plus 'a'), yet the reveal timer still runs at
the step's own speed 1 — no faster fixed rate was switched to — and
visibleLength has advanced to 15, counting every marker character,
contradicting the claim that the rate switches between the markers and
that visibleLength never advances over marker characters. -/
theorem C1_no_marker_speed_switch :
    ((typeTickStep)^[15] (mountState c1Script)).typingTimer = some ⟨0, 1⟩ ∧
    ((typeTickStep)^[15] (mountState c1Script)).segments.get? 0
      = some (.text markerContentChars 15 false 0) ∧
    markerContentChars.take 15 = YAML_BLOCK_START ++ ['a'] := by decide

/-- C1 (amended): a Type step reveals marker-bearing content exactly like
any other content: every reveal round keeps the timer at the step's speed
and advances visibleLength by one, marker characters included; the
sentinel markers are removed only at render time, where an all-text
buffer composes into a single text run passed through
_strip_yaml_markers. -/
theorem C1_marker_reveal_amended :
    (∀ (s : SceneState) (i : ℕ) (sp : ℚ) (c : Str) (v : ℕ) (g : Bool) (o : ℕ) (n : ℕ),
      s.typingTimer = some ⟨i, sp⟩ → s.pauseTimer = none →
      s.segments.get? i = some (.text c v g o) → v + n ≤ c.length →
      (revealRound^[n] s).typingTimer = some ⟨i, sp⟩ ∧
      (revealRound^[n] s).segments.get? i = some (.text c (v + n) g o)) ∧
    (∀ (segs : List Segment) (buf : Str), (∀ seg ∈ segs, isTextSeg seg = true) →
      renderAllAux segs buf =
        if buf ++ segsText segs = [] then []
        else [.textRun (strip_yaml_markers (buf ++ segsText segs))]) := by
  constructor
  · intro s i sp c v g o n ht hp hseg hle
    obtain ⟨h1, -, h3⟩ := revealRound_iterate n s i sp c v g o ht hp hseg hle
    exact ⟨h1, h3⟩
  · intro segs
    induction segs with
    | nil =>
      intro buf _
      simp [renderAllAux, segsText]
    | cons seg rest ih =>
      intro buf hall
      cases seg with
      | text c v g o =>
        rw [show renderAllAux (Segment.text c v g o :: rest) buf
            = renderAllAux rest (buf ++ segRenderText (.text c v g o)) from rfl]
        rw [ih _ (fun x hx => hall x (List.mem_cons_of_mem _ hx))]
        simp [segsText, List.append_assoc]
      | code c lang t =>
        have := hall (.code c lang t) (List.mem_cons_self _ _)
        cases this

/-- Witness for C1 (amended): 16 reveal rounds on the marker-bearing
content advance visibleLength to 16 with the timer still at speed 1. -/
theorem C1_marker_reveal_amended_witness :
    (revealRound^[16] (mountState c1Script)).typingTimer = some ⟨0, 1⟩ ∧
    (revealRound^[16] (mountState c1Script)).segments.get? 0
      = some (.text markerContentChars 16 false 0) := by
  have h := C1_marker_reveal_amended.1 (mountState c1Script) 0 1 markerContentChars 0 false 0 16
    rfl rfl rfl (by decide)
  exact ⟨h.1, h.2⟩

/-- C2 at the failing input: the script [Wait 1, Display "x"] torn down
while the Wait one-shot is outstanding.  on_unmount stops only the hint
pulse, the reveal timer and the animation clock; no handle to the Wait
(or narrative-pause) one-shot is ever stored, so after teardown the timer
is still armed and its callback runs _execute_next_step, appending to the
segment buffer: a post-teardown timer callback mutates the state, exactly
what the claim (and the spec) say must not happen. -/
theorem C2_teardown_leaks_wait_timer :
    (unmountStep (mountState c2Script)).waitTimer = some 1 ∧
    (stepEv .waitFire (unmountStep (mountState c2Script))).segments ≠
      (unmountStep (mountState c2Script)).segments := by decide

/-- C4: in every reachable interpreter state at most one suspension
reason (awaiting key, awaiting command choice, awaiting command
completion) is active, and the script cursor is never incremented while
one is active: the badAdvance ghost, set by the cursor increment exactly
when a suspension flag is up at that moment, stays false in every
reachable state. -/
theorem C4_single_suspension (script : List Step) (s : SceneState)
    (h : Reachable script s) :
    suspCount s ≤ 1 ∧ s.badAdvance = false :=
  ⟨(reachable_inv script s h).atMostOne, (reachable_inv script s h).noBad⟩

/-- Witness for C4 at the mounted one-step demo script. -/
theorem C4_single_suspension_witness :
    suspCount (mountState demoScript4) ≤ 1 ∧ (mountState demoScript4).badAdvance = false :=
  C4_single_suspension demoScript4 (mountState demoScript4) Reachable.init

/-- C5: (1) in every reachable state every text segment satisfies
0 ≤ visibleLength ≤ length(content); (2) a tick on a not-yet-complete
segment increases its visibleLength by exactly one (so the sequence is
monotone); (3) a tick on a complete segment cancels the reveal timer and
hands control to _execute_next_step; (4) from visibleLength 0 the reveal
terminates: after length(content) reveal rounds visibleLength equals
length(content); (5) _execute_next_step advances the cursor whenever
steps remain and no command is pending. -/
theorem C5_reveal_monotone_terminates :
    (∀ (script : List Step) (s : SceneState), Reachable script s →
      ∀ seg ∈ s.segments, segOK seg) ∧
    (∀ (s : SceneState) (i : ℕ) (sp : ℚ) (c : Str) (v : ℕ) (g : Bool) (o : ℕ),
      s.typingTimer = some ⟨i, sp⟩ → s.segments.get? i = some (.text c v g o) →
      v < c.length →
      (typeTickStep s).segments.get? i = some (.text c (v + 1) g o)) ∧
    (∀ (s : SceneState) (i : ℕ) (sp : ℚ) (c : Str) (v : ℕ) (g : Bool) (o : ℕ),
      s.typingTimer = some ⟨i, sp⟩ → s.segments.get? i = some (.text c v g o) →
      c.length ≤ v →
      typeTickStep s = execNext { s with typingTimer := none }) ∧
    (∀ (s : SceneState) (i : ℕ) (sp : ℚ) (c : Str) (g : Bool) (o : ℕ),
      s.typingTimer = some ⟨i, sp⟩ → s.pauseTimer = none →
      s.segments.get? i = some (.text c 0 g o) →
      (revealRound^[c.length] s).segments.get? i = some (.text c c.length g o) ∧
      (revealRound^[c.length] s).typingTimer = some ⟨i, sp⟩) ∧
    (∀ s : SceneState, s.waitingCompletion = false → s.idx < s.script.length →
      s.idx + 1 ≤ (execNext s).idx) := by
  refine ⟨?_, ?_, ?_, ?_, execNext_advances⟩
  · intro script s h
    exact (reachable_inv script s h).segsOK
  · intro s i sp c v g o ht hseg hv
    rcases typeTick_cases s i sp c v g o ht hseg with ⟨hfull, -⟩ | ⟨-, hsegs, -⟩
    · omega
    · rw [hsegs]
      exact modifyAt_get_self _ _ _ _ hseg
  · intro s i sp c v g o ht hseg hv
    rcases typeTick_cases s i sp c v g o ht hseg with ⟨-, hres⟩ | ⟨hlt, -, -⟩
    · exact hres
    · omega
  · intro s i sp c g o ht hp hseg
    obtain ⟨h1, -, h3⟩ := revealRound_iterate c.length s i sp c 0 g o ht hp hseg (by omega)
    refine ⟨?_, h1⟩
    simpa using h3

/-- Witness for C5: the two-character reveal of Type("ab") terminates at
visibleLength 2 after two rounds, timer intact until the final tick. -/
theorem C5_reveal_monotone_terminates_witness :
    (revealRound^[2] (mountState c5Script)).segments.get? 0
      = some (.text ['a', 'b'] 2 false 0) ∧
    (revealRound^[2] (mountState c5Script)).typingTimer = some ⟨0, 1⟩ := by
  have h := C5_reveal_monotone_terminates.2.2.2.1 (mountState c5Script) 0 1 ['a', 'b'] false 0
    rfl rfl rfl
  exact ⟨h.1, h.2⟩

/-- C7 counterexample: a line break revealed at index 0 (content "\na")
is not immediately preceded by another line break — there is no preceding
character at all — so the claim requires a pause; but _type_tick demands
current_idx > 0, so no pause occurs: the narrative-pause one-shot is not
armed and the reveal timer keeps running. -/
theorem C7_newline_at_start_no_pause :
    (typeTickStep (mountState [Step.type ['\n', 'a'] 1])).pauseTimer = none ∧
    (typeTickStep (mountState [Step.type ['\n', 'a'] 1])).typingTimer = some ⟨0, 1⟩ ∧
    (['\n', 'a'] : Str).get? 0 = some '\n' := by decide

/-- C7 (amended): when the newly revealed character is a line break at a
positive index whose predecessor is not a line break, the reveal timer is
stopped and a single resumption is scheduled after the fixed
narrative-pause delay of 0.8 seconds (longer than the per-character
interval for every scene speed, all of which are below 0.8); in every
other case — including a line break at index 0 — the timers are left
unchanged.  The resumption re-arms the reveal timer once, at the same
per-character speed. -/
theorem C7_newline_pause_amended :
    (∀ (s : SceneState) (i : ℕ) (sp : ℚ) (c : Str) (v : ℕ) (g : Bool) (o : ℕ),
      s.typingTimer = some ⟨i, sp⟩ → s.segments.get? i = some (.text c v g o) →
      v < c.length →
      ((0 < v ∧ c.get? v = some '\n' ∧ c.get? (v - 1) ≠ some '\n' →
        (typeTickStep s).typingTimer = none ∧
        (typeTickStep s).pauseTimer = some ⟨i, sp, narrativePauseDelay⟩) ∧
       (¬ (0 < v ∧ c.get? v = some '\n' ∧ c.get? (v - 1) ≠ some '\n') →
        (typeTickStep s).typingTimer = s.typingTimer ∧
        (typeTickStep s).pauseTimer = s.pauseTimer))) ∧
    (∀ (s : SceneState) (p : PauseTimer), s.pauseTimer = some p →
      (pauseFireStep s).typingTimer = some ⟨p.segIdx, p.speed⟩ ∧
      (pauseFireStep s).pauseTimer = none) ∧
    narrativePauseDelay = 4 / 5 := by
  refine ⟨?_, ?_, by norm_num [narrativePauseDelay]⟩
  · intro s i sp c v g o ht hseg hv
    rcases typeTick_cases s i sp c v g o ht hseg with ⟨hfull, -⟩ | ⟨-, -, hcase⟩
    · omega
    · rcases hcase with ⟨hcond, hty, hpa⟩ | ⟨hcond, hty, hpa⟩
      · exact ⟨fun _ => ⟨hty, hpa⟩, fun hn => absurd hcond hn⟩
      · exact ⟨fun hc => absurd hc hcond, fun _ => ⟨hty, hpa⟩⟩
  · intro s p hp
    unfold pauseFireStep
    split
    next p2 hp2 =>
      rw [hp] at hp2
      injection hp2 with hp2
      subst hp2
      exact ⟨rfl, rfl⟩
    next hp2 =>
      rw [hp] at hp2
      cases hp2

/-- Witness for C7 (amended): revealing the '\n' at index 1 of "a\nb"
stops the reveal timer and arms the 0.8-second narrative pause. -/
theorem C7_newline_pause_amended_witness :
    (typeTickStep pauseDemoState).typingTimer = none ∧
    (typeTickStep pauseDemoState).pauseTimer = some ⟨0, 1, narrativePauseDelay⟩ :=
  (C7_newline_pause_amended.1 pauseDemoState 0 1 ['a', '\n', 'b'] 1 false 0
    rfl rfl (by decide)).1 (by decide)

/-- C6: from any reachable state suspended on a Terminal step's menu,
"Skip" leaves the gateway-call ghost untouched and advances the script,
while "Run" appends exactly one gateway call carrying exactly that step's
command, does not move the cursor, and suspends awaiting completion; in
that suspension no event other than the completion signal moves the
cursor or calls the gateway, and the completion signal clears the
suspension and advances the script. -/
theorem C6_terminal_run_skip (script : List Step) (s : SceneState) (cmd : Str)
    (hr : Reachable script s) (hw : s.waitingCommand = true)
    (hstep : s.script.get? (s.idx - 1) = some (.terminal cmd)) :
    ((stepEv (.menuEvent skipChars) s).gatewayCalls = s.gatewayCalls ∧
     (s.idx < s.script.length → s.idx + 1 ≤ (stepEv (.menuEvent skipChars) s).idx)) ∧
    (∃ w, s.terminal = some w ∧
      (stepEv (.menuEvent runChars) s).gatewayCalls = s.gatewayCalls ++ [(cmd, w.timeout)] ∧
      (stepEv (.menuEvent runChars) s).idx = s.idx ∧
      (stepEv (.menuEvent runChars) s).waitingCompletion = true ∧
      (∀ e : Event, e ≠ .commandComplete →
        (stepEv e (stepEv (.menuEvent runChars) s)).idx = s.idx ∧
        (stepEv e (stepEv (.menuEvent runChars) s)).gatewayCalls
          = (stepEv (.menuEvent runChars) s).gatewayCalls) ∧
      (stepEv .commandComplete (stepEv (.menuEvent runChars) s)).waitingCompletion = false ∧
      (s.idx < s.script.length →
        s.idx + 1 ≤ (stepEv .commandComplete (stepEv (.menuEvent runChars) s)).idx)) := by
  have hi := reachable_inv script s hr
  have hsu := (susp_unique s hi).2.1 hw
  have htn : timersNone s :=
    timersNone_of_not_clear s hi (fun hf => absurd hw (by simp [hf.2.1]))
  obtain ⟨w0, hw0⟩ := Option.isSome_iff_exists.mp (hi.cmdStep hw).1
  have hskip : stepEv (.menuEvent skipChars) s =
      execNext { menuClear s with
        terminal := some { disableInput w0 with
          logLines := (disableInput w0).logLines ++ [skipNotice] } } := by
    show menuStep s skipChars = _
    unfold menuStep
    rw [if_pos hw, if_neg (by decide : ¬ (skipChars = runChars)), if_pos rfl]
    split
    next w hterm =>
      have h5 : s.terminal.map disableInput = some w := hterm
      rw [hw0] at h5
      injection h5 with h5
      subst h5
      rfl
    next hterm =>
      exfalso
      have h5 : s.terminal.map disableInput = none := hterm
      rw [hw0] at h5
      cases h5
  have hrun : stepEv (.menuEvent runChars) s =
      { menuClear s with
        waitingCompletion := true,
        inflightCmd := some cmd,
        gatewayCalls := s.gatewayCalls ++ [(cmd, w0.timeout)] } := by
    show menuStep s runChars = _
    unfold menuStep
    rw [if_pos hw, if_pos rfl]
    split
    next w hterm =>
      split
      next cmd2 hstep2 =>
        have h4 := Option.some.inj (hstep.symm.trans hstep2)
        injection h4 with h4
        subst h4
        have h5 : s.terminal.map disableInput = some w := hterm
        rw [hw0] at h5
        injection h5 with h5
        subst h5
        rfl
      next hstep2 =>
        exfalso
        exact hstep2 cmd hstep
    next hterm =>
      exfalso
      have h5 : s.terminal.map disableInput = none := hterm
      rw [hw0] at h5
      cases h5
  constructor
  · constructor
    · rw [hskip]
      exact (execFuel_frame _ _).2.1.trans rfl
    · intro hlt
      rw [hskip]
      apply execNext_advances_from
      · rfl
      · exact hsu.2
      · exact hlt
  · refine ⟨w0, hw0, ?_, ?_, ?_, ?_, ?_, ?_⟩
    · rw [hrun]
    · rw [hrun]
      rfl
    · rw [hrun]
    · intro e he
      have h1 : (stepEv (.menuEvent runChars) s).typingTimer = none := by
        rw [hrun]; exact htn.1
      have h2 : (stepEv (.menuEvent runChars) s).pauseTimer = none := by
        rw [hrun]; exact htn.2.1
      have h3 : (stepEv (.menuEvent runChars) s).waitTimer = none := by
        rw [hrun]; exact htn.2.2
      have h4 : (stepEv (.menuEvent runChars) s).waitingInput = false := by
        rw [hrun]; exact hsu.1
      have h5 : (stepEv (.menuEvent runChars) s).waitingCommand = false := by
        rw [hrun]; rfl
      have h0 := frozen_state_still _ h1 h2 h3 h4 h5 e he
      refine ⟨h0.1.trans ?_, h0.2⟩
      rw [hrun]
      rfl
    · rw [hrun]
      have hred : stepEv .commandComplete
          { menuClear s with
            waitingCompletion := true,
            inflightCmd := some cmd,
            gatewayCalls := s.gatewayCalls ++ [(cmd, w0.timeout)] } =
          execNext { menuClear s with
            waitingCompletion := false,
            inflightCmd := none,
            gatewayCalls := s.gatewayCalls ++ [(cmd, w0.timeout)] } := rfl
      rw [hred]
      exact (execFuel_frame _ _).2.2.1.trans rfl
    · intro hlt
      rw [hrun]
      have hred : stepEv .commandComplete
          { menuClear s with
            waitingCompletion := true,
            inflightCmd := some cmd,
            gatewayCalls := s.gatewayCalls ++ [(cmd, w0.timeout)] } =
          execNext { menuClear s with
            waitingCompletion := false,
            inflightCmd := none,
            gatewayCalls := s.gatewayCalls ++ [(cmd, w0.timeout)] } := rfl
      rw [hred]
      apply execNext_advances_from
      · rfl
      · rfl
      · exact hlt

/-- Witness for C6 at the one-step Terminal("ls") script. -/
theorem C6_terminal_run_skip_witness :
    (stepEv (.menuEvent skipChars) (mountState c6Script)).gatewayCalls
      = (mountState c6Script).gatewayCalls ∧
    (stepEv (.menuEvent runChars) (mountState c6Script)).waitingCompletion = true := by
  have h := C6_terminal_run_skip c6Script (mountState c6Script) "ls".toList
    Reachable.init rfl rfl
  obtain ⟨⟨h1, -⟩, w, -, -, -, h2, -⟩ := h
  exact ⟨h1, h2⟩

/-- C8: while suspended awaiting a key, every key event whose key differs
from the expected key leaves the whole scene state unchanged — the key is
neither buffered nor queued (the fold over any run of non-matching keys
is the identity) — and the matching key clears the suspension, stops the
hint animation, clears the hint text, and calls _execute_next_step
exactly once, advancing the cursor when steps remain. -/
theorem C8_wait_for_input (script : List Step) (s : SceneState)
    (hr : Reachable script s) (hw : s.waitingInput = true) :
    (∀ ks : List Str, (∀ k ∈ ks, k ≠ s.expectedKey) →
      List.foldl (fun st k => stepEv (.keyEvent k) st) s ks = s) ∧
    (stepEv (.keyEvent s.expectedKey) s =
      execNext { s with waitingInput := false, navHintTimer := false, navHintText := [] }) ∧
    (s.idx < s.script.length → s.idx + 1 ≤ (stepEv (.keyEvent s.expectedKey) s).idx) := by
  have hi := reachable_inv script s hr
  have hsu := (susp_unique s hi).1 hw
  have hmatch : stepEv (.keyEvent s.expectedKey) s =
      execNext { s with waitingInput := false, navHintTimer := false, navHintText := [] } := by
    show keyStep s s.expectedKey = _
    unfold keyStep
    rw [if_pos ⟨hw, rfl⟩]
  refine ⟨?_, hmatch, ?_⟩
  · intro ks hks
    induction ks with
    | nil => rfl
    | cons k rest ih =>
      have hne := hks k (List.mem_cons_self k rest)
      show List.foldl _ (stepEv (.keyEvent k) s) rest = s
      rw [show stepEv (.keyEvent k) s = s from by
        show keyStep s k = s
        unfold keyStep
        rw [if_neg]
        rintro ⟨-, hk⟩
        exact hne hk]
      exact ih (fun x hx => hks x (List.mem_cons_of_mem k hx))
  · intro hlt
    rw [hmatch]
    apply execNext_advances_from
    · rfl
    · exact hsu.2
    · exact hlt

/-- Witness for C8: at the mounted WaitForInput("enter") script, the
non-matching key "x" changes nothing, and the matching key advances the
cursor. -/
theorem C8_wait_for_input_witness :
    List.foldl (fun st k => stepEv (.keyEvent k) st) (mountState c8Script) [['x']]
      = mountState c8Script ∧
    (mountState c8Script).idx + 1
      ≤ (stepEv (.keyEvent (mountState c8Script).expectedKey) (mountState c8Script)).idx := by
  have h := C8_wait_for_input c8Script (mountState c8Script) Reachable.init rfl
  exact ⟨h.1 [['x']] (by decide), h.2.2 (by decide)⟩

/-- C9 counterexample: in the script [Terminal "ls", Terminal "pip
install foo"], the widget is created at the first Terminal step with
timeout 30 and reused for the second; running the second command records
a gateway call with timeout 30 even though its command contains "pip
install", for which the claim demands 120. -/
theorem C9_timeout_counterexample :
    (stepEv (.menuEvent runChars)
        (stepEv (.menuEvent skipChars) (mountState c9Script))).gatewayCalls
      = [(pipCmdChars, 30)] ∧
    containsSub pipInstallChars pipCmdChars = true ∧ (30 : ℕ) ≠ 120 := by decide

/-- C9 (amended): the run timeout is fixed when the terminal widget is
first created, from the first Terminal step's command — 120 seconds when
it contains "pip install", 30 otherwise — and every gateway call made in
any reachable state uses that same timeout, whatever the command being
run; on timeout run_command kills the process and still returns, so
completion is always reported and the interpreter is never suspended
indefinitely. -/
theorem C9_timeout_amended :
    (∀ (script : List Step) (s : SceneState) (w : TerminalW), Reachable script s →
      s.terminal = some w →
      ∃ c0, s.firstTerminalCmd = some c0 ∧ w.timeout = chooseTimeout c0) ∧
    (∀ (script : List Step) (s : SceneState) (p : Str × ℕ), Reachable script s →
      p ∈ s.gatewayCalls →
      ∃ c0, s.firstTerminalCmd = some c0 ∧ p.2 = chooseTimeout c0) ∧
    (run_command_result .timedOut).processKilled = true ∧
    (∀ oc : CmdOutcome, (run_command_result oc).completed = true) := by
  refine ⟨?_, ?_, rfl, ?_⟩
  · intro script s w hr hterm
    have hi := reachable_inv script s hr
    cases hfc : s.firstTerminalCmd with
    | none =>
      exfalso
      have h0 := (hi.timeoutInv.1 hfc).1
      rw [h0] at hterm
      cases hterm
    | some c0 =>
      obtain ⟨⟨w2, hw2, hwt⟩, -⟩ := hi.timeoutInv.2 c0 hfc
      rw [hterm] at hw2
      injection hw2 with hw2
      subst hw2
      exact ⟨c0, rfl, hwt⟩
  · intro script s p hr hp
    have hi := reachable_inv script s hr
    cases hfc : s.firstTerminalCmd with
    | none =>
      exfalso
      have h0 := (hi.timeoutInv.1 hfc).2
      rw [h0] at hp
      cases hp
    | some c0 =>
      obtain ⟨-, hcalls⟩ := hi.timeoutInv.2 c0 hfc
      exact ⟨c0, rfl, hcalls p hp⟩
  · intro oc
    cases oc <;> rfl

/-- Witness for C9 (amended): at the mounted [Terminal "pip install
foo"] script the widget timeout is chooseTimeout of that first command
(= 120). -/
theorem C9_timeout_amended_witness :
    ∃ c0, (mountState c9AScript).firstTerminalCmd = some c0 ∧
      (mkTerminalW pipCmdChars).timeout = chooseTimeout c0 :=
  C9_timeout_amended.1 c9AScript (mountState c9AScript) (mkTerminalW pipCmdChars)
    Reachable.init rfl

/-- C10: when the buffer ends in a TextSegment, a Display step with
clear=False appends two segments — a fully visible "\n\n" spacer
(visible_length 2) and then the fully visible content segment — and a
Terminal step prepends the same spacer exactly when that last
TextSegment's content does not end with a newline. -/
theorem C10_display_terminal_spacing (s : SceneState) (c cmd : Str)
    (ss : List Segment) (tc : Str) (tv : ℕ) (tg : Bool) (tgo : ℕ)
    (h : s.segments = ss ++ [.text tc tv tg tgo]) :
    (handleDisplay s c false).segments
      = s.segments ++ [spacerSegment, .text c c.length false 0] ∧
    (tc.getLast? ≠ some '\n' →
      (handleTerminal s cmd).segments = s.segments ++ [spacerSegment]) ∧
    (tc.getLast? = some '\n' →
      (handleTerminal s cmd).segments = s.segments) := by
  have hlast : s.segments.getLast? = some (.text tc tv tg tgo) := by
    rw [h]
    exact List.getLast?_concat _
  refine ⟨?_, ?_, ?_⟩
  · show (if (false : Bool) = true then ([] : List Segment)
        else match s.segments.getLast? with
          | some seg => if isTextSeg seg = true then s.segments ++ [spacerSegment] else s.segments
          | none => s.segments) ++ [.text c c.length false 0]
      = s.segments ++ [spacerSegment, .text c c.length false 0]
    rw [if_neg (by simp), hlast]
    show (if isTextSeg (.text tc tv tg tgo) = true then s.segments ++ [spacerSegment]
        else s.segments) ++ [Segment.text c c.length false 0]
      = s.segments ++ [spacerSegment, .text c c.length false 0]
    have htext : isTextSeg (Segment.text tc tv tg tgo) = true := rfl
    rw [if_pos htext, List.append_assoc]
    rfl
  · intro hne
    show terminalSegs s.segments = s.segments ++ [spacerSegment]
    unfold terminalSegs
    rw [hlast]
    show (if tc.getLast? ≠ some '\n' then s.segments ++ [spacerSegment] else s.segments)
      = s.segments ++ [spacerSegment]
    rw [if_pos hne]
  · intro heq
    show terminalSegs s.segments = s.segments
    unfold terminalSegs
    rw [hlast]
    show (if tc.getLast? ≠ some '\n' then s.segments ++ [spacerSegment] else s.segments)
      = s.segments
    rw [if_neg (fun hne => hne heq)]

/-- Witness for C10 at a buffer ending in the fully visible TextSegment
"hi" (which does not end in a newline). -/
theorem C10_display_terminal_spacing_witness :
    (handleDisplay c10DemoState ['x'] false).segments
      = c10DemoState.segments ++ [spacerSegment, .text ['x'] 1 false 0] ∧
    (handleTerminal c10DemoState "ls".toList).segments
      = c10DemoState.segments ++ [spacerSegment] := by
  have h := C10_display_terminal_spacing c10DemoState ['x'] "ls".toList []
    ['h', 'i'] 2 false 0 rfl
  exact ⟨h.1, h.2.1 (by decide)⟩

end StimulusOnboarding
